import Mathlib

/-!
# Verification of the stcats-ops recurring schedule entry engine

This file is a shallow embedding, in Lean 4, of the recurring-schedule kernel of
the stcats-ops school administration portal: the occurrence store
(`core/models.py`, model `ScheduleEntry`), the recurrence engine
(`core/views.py`, views `create_schedule_entry`, `edit_schedule_entry`,
`delete_schedule_entry`, plus `ScheduleEntry.update_recurrence_metadata` and
`ScheduleEntryManager.cleanup_past_entries`), the status classifier
(`ScheduleEntry.get_status`), the calendar windowing logic
(`_build_scheduler_context`), and the CSV field formatting
(`export_schedule_csv`).

Modelling conventions:

* The database table is a `List ScheduleEntry`; primary keys are natural
  numbers and the primary-key uniqueness of a real table is carried as an
  explicit `Nodup` hypothesis where a proof needs it.
* Dates are proleptic Gregorian ordinals (as in Python `date.toordinal`),
  embedded in `ℤ` so that `date + timedelta(days=k)` is ordinary addition.
  Python weekday() of an ordinal `z` is `(z + 6) % 7` (Monday = 0).
* Times of day are embedded as microseconds since midnight in `ℕ`; Python
  `time` comparison coincides with numeric comparison of this encoding.
  Where the digit structure of a time matters (CSV formatting), a separate
  `PyTime` record with hour/minute/second/microsecond fields is used.
* Foreign keys (teacher, classroom, subject, course, group) are numbers;
  `recurrence_group` (a UUID in the source) is an `Option ℕ`.
* Django querysets ordered by `(date, start_time, id)` are modelled by
  `List.insertionSort` with the corresponding lexicographic relation; saving
  a model object is a positional update of the row with the same primary key.
-/

/-- One persisted schedule entry (model `ScheduleEntry` in `core/models.py`),
restricted to the fields the recurrence engine and calendar read or write. -/
structure ScheduleEntry where
  id : ℕ
  teacher : ℕ
  classroom : ℕ
  subject : ℕ
  course : ℕ
  group : ℕ
  date : ℤ
  start_time : ℕ
  end_time : ℕ
  recurrence_group : Option ℕ
  recurrence_interval_days : Option ℕ
  recurrence_total_occurrences : Option ℕ
  recurrence_index : Option ℕ
deriving DecidableEq, Repr

/-- The queryset ordering `order_by("date", "start_time", "id")`:
lexicographic comparison of the sort key. -/
def entryKeyLE (a b : ScheduleEntry) : Prop :=
  a.date < b.date ∨
    (a.date = b.date ∧
      (a.start_time < b.start_time ∨ (a.start_time = b.start_time ∧ a.id ≤ b.id)))

instance : DecidableRel entryKeyLE := by
  intro a b
  unfold entryKeyLE
  infer_instance

instance : IsTotal ScheduleEntry entryKeyLE :=
  ⟨by intro a b; unfold entryKeyLE; omega⟩

instance : IsTrans ScheduleEntry entryKeyLE :=
  ⟨by intro a b c; unfold entryKeyLE; omega⟩

/-- Materialised `order_by("date", "start_time", "id")` on a list of rows. -/
def sortEntries (l : List ScheduleEntry) : List ScheduleEntry :=
  List.insertionSort entryKeyLE l

/-- Membership test for a recurrence series: `filter(recurrence_group=grp)`. -/
def memberOf (grp : ℕ) (e : ScheduleEntry) : Bool :=
  e.recurrence_group == some grp

/-- The body of the `update_recurrence_metadata` loop for one member: look the
row's rank up in the canonically ordered member list `es` and store
`recurrence_index = rank` and `recurrence_total_occurrences = total`. -/
def reindexMember (es : List ScheduleEntry) (total : ℕ) (e : ScheduleEntry) :
    ScheduleEntry :=
  match es.findIdx? (fun x => x.id == e.id) with
  | some i =>
      { e with
        recurrence_index := some (i + 1)
        recurrence_total_occurrences := some total }
  | none => e

/-- `ScheduleEntry.update_recurrence_metadata` (`core/models.py`): if the group
is null or has no members, do nothing; otherwise order the members by
`(date, start_time, id)` and write 1-based ranks and the member count back to
every member row. -/
def update_recurrence_metadata (g : Option ℕ) (store : List ScheduleEntry) :
    List ScheduleEntry :=
  match g with
  | none => store
  | some grp =>
      let es := sortEntries (store.filter (memberOf grp))
      if es.length = 0 then store
      else
        store.map (fun e =>
          if memberOf grp e then reindexMember es es.length e else e)

/-- How many member rows a run of `update_recurrence_metadata` would actually
save (the loop only calls `entry.save` when `updates` is non-empty). -/
def reindexDirtyCount (g : Option ℕ) (store : List ScheduleEntry) : ℕ :=
  match g with
  | none => 0
  | some grp =>
      let es := sortEntries (store.filter (memberOf grp))
      if es.length = 0 then 0
      else
        (List.range es.length).countP (fun i =>
          match es.get? i with
          | some e =>
              !(e.recurrence_index == some (i + 1) &&
                e.recurrence_total_occurrences == some es.length)
          | none => false)

/-- The per-entry form data common to the create and edit views (after the
views' parsing and "all fields are required" validation). -/
structure EditFields where
  teacher : ℕ
  classroom : ℕ
  subject : ℕ
  course : ℕ
  group : ℕ
  date : ℤ
  start_time : ℕ
  end_time : ℕ
deriving DecidableEq, Repr

/-- Assignment of the eight plain columns from submitted form data
(`entry.teacher = teacher; ...; entry.end_time = end_time`). -/
def applyFields (f : EditFields) (e : ScheduleEntry) : ScheduleEntry :=
  { e with
    teacher := f.teacher
    classroom := f.classroom
    subject := f.subject
    course := f.course
    group := f.group
    date := f.date
    start_time := f.start_time
    end_time := f.end_time }

/-- `ScheduleEntry.objects.get(id=entry_id)` on the table. -/
def lookupEntry (entryId : ℕ) (store : List ScheduleEntry) :
    Option ScheduleEntry :=
  store.find? (fun e => e.id == entryId)

/-- A freshly created row of a recurring series
(`ScheduleEntry.objects.create(..., recurrence_group=...,
recurrence_index=rank)`). -/
def mkSeriesEntry (rowId : ℕ) (f : EditFields) (grp i n : ℕ) (d : ℤ)
    (rank : ℕ) : ScheduleEntry :=
  { id := rowId
    teacher := f.teacher
    classroom := f.classroom
    subject := f.subject
    course := f.course
    group := f.group
    date := d
    start_time := f.start_time
    end_time := f.end_time
    recurrence_group := some grp
    recurrence_interval_days := some i
    recurrence_total_occurrences := some n
    recurrence_index := some rank }

/-- A freshly created standalone row (no recurrence metadata). -/
def mkPlainEntry (rowId : ℕ) (f : EditFields) : ScheduleEntry :=
  { id := rowId
    teacher := f.teacher
    classroom := f.classroom
    subject := f.subject
    course := f.course
    group := f.group
    date := f.date
    start_time := f.start_time
    end_time := f.end_time
    recurrence_group := none
    recurrence_interval_days := none
    recurrence_total_occurrences := none
    recurrence_index := none }

/-- Non-recurring branch of `create_schedule_entry`: one new standalone row
with the next auto-increment primary key. -/
def create_schedule_entry_single (nextId : ℕ) (f : EditFields)
    (store : List ScheduleEntry) : List ScheduleEntry :=
  store ++ [mkPlainEntry nextId f]

/-- Recurring branch of `create_schedule_entry` (views.py, the Materialize
operation): under a fresh `recurrence_group` create `n` rows dated
`f.date + interval_days * index` with `recurrence_index = index + 1`, then
run `update_recurrence_metadata`. -/
def create_schedule_entry_recurring (nextId grp : ℕ) (f : EditFields)
    (i n : ℕ) (store : List ScheduleEntry) : List ScheduleEntry :=
  update_recurrence_metadata (some grp)
    (store ++ (List.range n).map (fun k =>
      mkSeriesEntry (nextId + k) f grp i n (f.date + (i * k : ℕ)) (k + 1)))

/-- `edit_schedule_entry`, branch standalone to standalone: plain field
update of the addressed row. -/
def edit_schedule_entry_plain (entryId : ℕ) (f : EditFields)
    (store : List ScheduleEntry) : List ScheduleEntry :=
  match lookupEntry entryId store with
  | none => store
  | some _ =>
      store.map (fun e => if e.id == entryId then applyFields f e else e)

/-- `edit_schedule_entry`, branch standalone to recurring: the addressed row
becomes position 1 of a fresh series, rows 2..n are created dated
`f.date + interval_days * index`, then `update_recurrence_metadata`. -/
def edit_schedule_entry_attach (entryId : ℕ) (f : EditFields)
    (i n grp nextId : ℕ) (store : List ScheduleEntry) : List ScheduleEntry :=
  match lookupEntry entryId store with
  | none => store
  | some _ =>
      update_recurrence_metadata (some grp)
        ((store.map (fun e =>
          if e.id == entryId then
            { applyFields f e with
              recurrence_group := some grp
              recurrence_interval_days := some i
              recurrence_total_occurrences := some n
              recurrence_index := some 1 }
          else e)) ++
        (List.range (n - 1)).map (fun k =>
          mkSeriesEntry (nextId + k) f grp i n (f.date + (i * (k + 1) : ℕ))
            (k + 2)))

/-- `edit_schedule_entry`, branch recurring to standalone with
`scope=series`: shift every member's date by the submitted date delta, apply
the other submitted fields to every member, and clear all recurrence
metadata (the series dissolves). -/
def edit_schedule_entry_detach_series (entryId : ℕ) (f : EditFields)
    (store : List ScheduleEntry) : List ScheduleEntry :=
  match lookupEntry entryId store with
  | none => store
  | some entry0 =>
      match entry0.recurrence_group with
      | none => store
      | some grp =>
          let delta := f.date - entry0.date
          store.map (fun e =>
            if memberOf grp e then
              { applyFields f e with
                date := e.date + delta
                recurrence_group := none
                recurrence_interval_days := none
                recurrence_total_occurrences := none
                recurrence_index := none }
            else e)

/-- `edit_schedule_entry`, branch recurring to standalone with
`scope=single`: apply the submitted fields to the addressed row, clear its
recurrence metadata, then reindex the remaining series. -/
def edit_schedule_entry_detach_single (entryId : ℕ) (f : EditFields)
    (store : List ScheduleEntry) : List ScheduleEntry :=
  match lookupEntry entryId store with
  | none => store
  | some entry0 =>
      update_recurrence_metadata entry0.recurrence_group
        (store.map (fun e =>
          if e.id == entryId then
            { applyFields f e with
              recurrence_group := none
              recurrence_interval_days := none
              recurrence_total_occurrences := none
              recurrence_index := none }
          else e))

/-- `edit_schedule_entry`, branch recurring to recurring with
`scope=single`: apply the submitted fields to the addressed row only, keep
its series membership, then reindex its series. -/
def edit_schedule_entry_single_in_series (entryId : ℕ) (f : EditFields)
    (store : List ScheduleEntry) : List ScheduleEntry :=
  match lookupEntry entryId store with
  | none => store
  | some entry0 =>
      update_recurrence_metadata entry0.recurrence_group
        (store.map (fun e => if e.id == entryId then applyFields f e else e))

/-- Sort key for `order_by("recurrence_index", ...)`: a null
`recurrence_index` is encoded below every non-null one (the branch using
this ordering only ever runs right after a reindex, when every member index
is non-null, so the null placement is never observable). -/
def idxKey (e : ScheduleEntry) : ℤ :=
  match e.recurrence_index with
  | none => -1
  | some k => (k : ℤ)

/-- The queryset ordering
`order_by("recurrence_index", "date", "start_time", "id")`. -/
def entryIdxKeyLE (a b : ScheduleEntry) : Prop :=
  idxKey a < idxKey b ∨ (idxKey a = idxKey b ∧ entryKeyLE a b)

instance : DecidableRel entryIdxKeyLE := by
  intro a b
  unfold entryIdxKeyLE entryKeyLE
  infer_instance

instance : IsTotal ScheduleEntry entryIdxKeyLE :=
  ⟨by intro a b; unfold entryIdxKeyLE entryKeyLE; omega⟩

instance : IsTrans ScheduleEntry entryIdxKeyLE :=
  ⟨by intro a b c; unfold entryIdxKeyLE entryKeyLE; omega⟩

/-- Materialised `order_by("recurrence_index", "date", "start_time", "id")`. -/
def sortEntriesIdx (l : List ScheduleEntry) : List ScheduleEntry :=
  List.insertionSort entryIdxKeyLE l

/-- In-place update of the member at target position `k` (0-based) during a
series resize: new fields, target date, and refreshed recurrence metadata. -/
def resizeUpd (f : EditFields) (i n : ℕ) (newStart : ℤ) (k : ℕ)
    (e : ScheduleEntry) : ScheduleEntry :=
  { e with
    teacher := f.teacher
    classroom := f.classroom
    subject := f.subject
    course := f.course
    group := f.group
    date := newStart + (i * k : ℕ)
    start_time := f.start_time
    end_time := f.end_time
    recurrence_interval_days := some i
    recurrence_total_occurrences := some n
    recurrence_index := some (k + 1) }

/-- The per-row form of the resize loop's in-place updates: a row whose id
ranks at target position `k < n` in the canonical member list `ses` is
updated in place; every other row is untouched. -/
def resizeRowMap (f : EditFields) (i n : ℕ) (newStart : ℤ)
    (ses : List ScheduleEntry) (e : ScheduleEntry) : ScheduleEntry :=
  match ses.findIdx? (fun x => x.id == e.id) with
  | some k => if k < n then resizeUpd f i n newStart k e else e
  | none => e

/-- `edit_schedule_entry`, branch recurring to recurring with
`scope=series` (series resize/retarget): reindex, refresh the addressed row,
read its rank, anchor the new series start so this row's target lands on the
submitted date, update members at target positions in canonical order,
create rows for positions past the old member count, delete members past the
new count, reindex.  The `r - 1` is ℕ subtraction; after the leading reindex
the refreshed rank is always at least 1, matching the Python `int` value. -/
def edit_schedule_entry_resize (entryId : ℕ) (f : EditFields)
    (i n nextId : ℕ) (store : List ScheduleEntry) : List ScheduleEntry :=
  match lookupEntry entryId store with
  | none => store
  | some entry0 =>
      match entry0.recurrence_group with
      | none => store
      | some grp =>
          let store1 := update_recurrence_metadata (some grp) store
          let entry1 := (lookupEntry entryId store1).getD entry0
          let ses := sortEntriesIdx (store1.filter (memberOf grp))
          let r := entry1.recurrence_index.getD 1
          let newStart : ℤ := f.date - (i * (r - 1) : ℕ)
          let store2 := store1.map (resizeRowMap f i n newStart ses)
          let created := (List.range' ses.length (n - ses.length)).map
            (fun k => mkSeriesEntry (nextId + (k - ses.length)) f grp i n
              (newStart + (i * k : ℕ)) (k + 1))
          let deletedIds := (ses.drop n).map (fun e => e.id)
          update_recurrence_metadata (some grp)
            ((store2 ++ created).filter (fun e => !(deletedIds.contains e.id)))

/-- `delete_schedule_entry` without series scope: delete the addressed row,
then reindex its series (a no-op when it was standalone). -/
def delete_schedule_entry_single (entryId : ℕ)
    (store : List ScheduleEntry) : List ScheduleEntry :=
  match lookupEntry entryId store with
  | none => store
  | some entry0 =>
      update_recurrence_metadata entry0.recurrence_group
        (store.filter (fun e => !(e.id == entryId)))

/-- `delete_schedule_entry` with `scope=series`: delete every row sharing the
addressed row's `recurrence_group`. -/
def delete_schedule_entry_series (entryId : ℕ)
    (store : List ScheduleEntry) : List ScheduleEntry :=
  match lookupEntry entryId store with
  | none => store
  | some entry0 =>
      match entry0.recurrence_group with
      | none => store
      | some grp => store.filter (fun e => !(memberOf grp e))

/-- `ScheduleEntryManager.cleanup_past_entries`: delete rows dated strictly
before today, then rows dated today whose end time has passed. -/
def cleanup_past_entries (today : ℤ) (now : ℕ)
    (store : List ScheduleEntry) : List ScheduleEntry :=
  (store.filter (fun e => !(decide (e.date < today)))).filter
    (fun e => !(decide (e.date = today) && decide (e.end_time < now)))

/-- The count that `cleanup_past_entries` returns. -/
def cleanup_past_entries_count (today : ℤ) (now : ℕ)
    (store : List ScheduleEntry) : ℕ :=
  store.length - (cleanup_past_entries today now store).length

/-- The recurrence-metadata invariant for one series: listing the rows with
this `recurrence_group` in ascending `(date, start_time, id)` order, the row
at 0-based position `i` carries `recurrence_index = i + 1` and
`recurrence_total_occurrences =` the member count. -/
def seriesOk (grp : ℕ) (store : List ScheduleEntry) : Bool :=
  let ms := sortEntries (store.filter (memberOf grp))
  (List.range ms.length).all (fun i =>
    match ms.get? i with
    | some e =>
        e.recurrence_index == some (i + 1) &&
        e.recurrence_total_occurrences == some ms.length
    | none => true)

/-- The store-wide invariant: every series that currently has a member
satisfies `seriesOk`. -/
def seriesInvariant (store : List ScheduleEntry) : Prop :=
  ∀ g ∈ store.filterMap (fun e => e.recurrence_group), seriesOk g store = true

/-- Primary keys are pairwise distinct (the table invariant a relational
database enforces for us). -/
def nodupIds (store : List ScheduleEntry) : Prop :=
  (store.map (fun e => e.id)).Nodup

/-- `nextId` is a fresh auto-increment key: strictly above every existing
primary key. -/
def freshIds (nextId : ℕ) (store : List ScheduleEntry) : Prop :=
  ∀ e ∈ store, e.id < nextId

/-- The row addressed by `entryId`, if any, is standalone. -/
def targetStandalone (entryId : ℕ) (store : List ScheduleEntry) : Prop :=
  ∀ e ∈ store, e.id = entryId → e.recurrence_group = none

/-- The mutation surface of the recurrence engine: creation (single and
recurring), the four edit branches (with both scopes where applicable),
deletion (both scopes), and a bare reindex. `cleanup_past_entries` is
deliberately not an element: it does not reindex the series it touches and
does not preserve the recurrence invariant. -/
inductive MutationOp where
  | createSingle (nextId : ℕ) (f : EditFields)
  | createRecurring (nextId grp : ℕ) (f : EditFields) (i n : ℕ)
  | editPlain (entryId : ℕ) (f : EditFields)
  | editAttach (entryId : ℕ) (f : EditFields) (i n grp nextId : ℕ)
  | editDetachSeries (entryId : ℕ) (f : EditFields)
  | editDetachSingle (entryId : ℕ) (f : EditFields)
  | editResize (entryId : ℕ) (f : EditFields) (i n nextId : ℕ)
  | editSingleInSeries (entryId : ℕ) (f : EditFields)
  | deleteSingle (entryId : ℕ)
  | deleteSeries (entryId : ℕ)
  | reindexSeries (g : Option ℕ)

/-- Dispatch of a mutation operation to its definition. -/
def applyOp : MutationOp → List ScheduleEntry → List ScheduleEntry
  | MutationOp.createSingle nextId f => create_schedule_entry_single nextId f
  | MutationOp.createRecurring nextId grp f i n =>
      create_schedule_entry_recurring nextId grp f i n
  | MutationOp.editPlain entryId f => edit_schedule_entry_plain entryId f
  | MutationOp.editAttach entryId f i n grp nextId =>
      edit_schedule_entry_attach entryId f i n grp nextId
  | MutationOp.editDetachSeries entryId f =>
      edit_schedule_entry_detach_series entryId f
  | MutationOp.editDetachSingle entryId f =>
      edit_schedule_entry_detach_single entryId f
  | MutationOp.editResize entryId f i n nextId =>
      edit_schedule_entry_resize entryId f i n nextId
  | MutationOp.editSingleInSeries entryId f =>
      edit_schedule_entry_single_in_series entryId f
  | MutationOp.deleteSingle entryId => delete_schedule_entry_single entryId
  | MutationOp.deleteSeries entryId => delete_schedule_entry_series entryId
  | MutationOp.reindexSeries g => update_recurrence_metadata g

/-- Preconditions under which each operation runs in the application: the
table invariants (distinct primary keys, fresh auto-increment keys for
creations), the view-level validation (`interval_days > 0`,
`occurrences >= 2`), and the branch dispatch conditions (the standalone
branches only run on standalone rows). -/
def opValid : MutationOp → List ScheduleEntry → Prop
  | MutationOp.createSingle _ _, _ => True
  | MutationOp.createRecurring nextId _ _ i n, store =>
      nodupIds store ∧ freshIds nextId store ∧ 1 ≤ i ∧ 2 ≤ n
  | MutationOp.editPlain entryId _, store => targetStandalone entryId store
  | MutationOp.editAttach entryId _ i n _ nextId, store =>
      targetStandalone entryId store ∧ nodupIds store ∧
        freshIds nextId store ∧ 1 ≤ i ∧ 2 ≤ n
  | MutationOp.editDetachSeries _ _, _ => True
  | MutationOp.editDetachSingle _ _, store => nodupIds store
  | MutationOp.editResize _ _ i n nextId, store =>
      nodupIds store ∧ freshIds nextId store ∧ 1 ≤ i ∧ 2 ≤ n
  | MutationOp.editSingleInSeries _ _, store => nodupIds store
  | MutationOp.deleteSingle _, store => nodupIds store
  | MutationOp.deleteSeries _, _ => True
  | MutationOp.reindexSeries _, store => nodupIds store

/-- `ScheduleEntry.get_status` (`core/models.py`): classify an occurrence as
upcoming, finished, or active relative to a reference date and time. -/
def get_status (e : ScheduleEntry) (reference_date : ℤ)
    (reference_time : ℕ) : String :=
  if e.date > reference_date ∨
      (e.date = reference_date ∧ e.start_time > reference_time) then
    "upcoming"
  else if e.date < reference_date ∨
      (e.date = reference_date ∧ e.end_time < reference_time) then
    "finished"
  else
    "active"

/-! ## Calendar windowing (`_build_scheduler_context`) -/

/-- Gregorian leap-year rule (as implemented by Python `calendar`). -/
def isLeapYear (y : ℕ) : Bool :=
  y % 4 == 0 && (y % 100 != 0 || y % 400 == 0)

/-- Number of days of month `m` of year `y`
(`calendar.monthrange(year, month)[1]`). -/
def monthLength (y m : ℕ) : ℕ :=
  if m = 2 then (if isLeapYear y then 29 else 28)
  else if m = 4 ∨ m = 6 ∨ m = 9 ∨ m = 11 then 30
  else 31

/-- Days strictly before January 1 of year `y` in the proleptic Gregorian
calendar (so the ordinal of `date(y, 1, 1)` is `daysBeforeYear y + 1`, with
`date(1, 1, 1).toordinal() == 1` as in Python). -/
def daysBeforeYear (y : ℕ) : ℕ :=
  (y - 1) * 365 + (y - 1) / 4 - (y - 1) / 100 + (y - 1) / 400

/-- Days of year `y` strictly before the first of month `m`. -/
def daysBeforeMonth (y m : ℕ) : ℕ :=
  ((List.range (m - 1)).map (fun k => monthLength y (k + 1))).sum

/-- `date(y, m, d).toordinal()`. -/
def toOrdinal (y m d : ℕ) : ℕ :=
  daysBeforeYear y + daysBeforeMonth y m + d

/-- Python `date.weekday()` of an ordinal: Monday is 0, Sunday is 6
(ordinal 1, `0001-01-01`, is a Monday). -/
def pyWeekday (z : ℤ) : ℤ :=
  (z + 6) % 7

/-- First day of the rendered window: the month start aligned back to the
most recent Monday (`current_month_start - timedelta(days=weekday)`). -/
def calendarWindowStart (y m : ℕ) : ℤ :=
  (toOrdinal y m 1 : ℤ) - pyWeekday (toOrdinal y m 1 : ℤ)

/-- Last day of the month (`current_month_start + timedelta(month_days - 1)`). -/
def monthEndOrdinal (y m : ℕ) : ℤ :=
  (toOrdinal y m 1 : ℤ) + (monthLength y m : ℕ) - 1

/-- Last day of the rendered window: the month end aligned forward to the
next Sunday (`current_month_end + timedelta(days=6 - weekday)`). -/
def calendarWindowEnd (y m : ℕ) : ℤ :=
  monthEndOrdinal y m + (6 - pyWeekday (monthEndOrdinal y m))

/-- The `while pointer <= calendar_end` loop, one week (seven day-cell dates)
per iteration, with an explicit fuel bound on the number of iterations. -/
def buildWeeksAux (ce : ℤ) : ℕ → ℤ → List (List ℤ)
  | 0, _ => []
  | fuel + 1, pointer =>
      if pointer ≤ ce then
        ((List.range 7).map (fun d => pointer + (d : ℕ))) ::
          buildWeeksAux ce fuel (pointer + 7)
      else []

/-- The rendered calendar grid for `(y, m)`: whole weeks of day-cell dates
covering the display window.  (Each day cell of the source also carries
`is_current_month` / `is_today` / weekend flags and its entry bucket; the
claims below concern the cell dates, so cells are modelled by their date.) -/
def calendarWeeks (y m : ℕ) : List (List ℤ) :=
  let cs := calendarWindowStart y m
  let ce := calendarWindowEnd y m
  buildWeeksAux ce (ce + 7 - cs).toNat cs

/-! ## CSV field formatting (`export_schedule_csv`) -/

/-- Python `datetime.time`: hour, minute, second, microsecond. -/
structure PyTime where
  hour : ℕ
  minute : ℕ
  second : ℕ
  microsecond : ℕ
deriving DecidableEq, Repr

/-- Python `datetime.date`: year, month, day. -/
structure PyDate where
  year : ℕ
  month : ℕ
  day : ℕ
deriving DecidableEq, Repr

/-- The range constraints `datetime.time` enforces on construction. -/
def validTime (t : PyTime) : Prop :=
  t.hour < 24 ∧ t.minute < 60 ∧ t.second < 60 ∧ t.microsecond < 1000000

/-- The range constraints `datetime.date` enforces on construction. -/
def validDate (d : PyDate) : Prop :=
  1 ≤ d.year ∧ d.year ≤ 9999 ∧ 1 ≤ d.month ∧ d.month ≤ 12 ∧
    1 ≤ d.day ∧ d.day ≤ monthLength d.year d.month

/-- The decimal digit character for `n < 10`. -/
def digitChar (n : ℕ) : Char :=
  Char.ofNat (48 + n)

/-- Zero-padded two-digit decimal rendering (`%H`, `%M`, `%m`, `%d`). -/
def twoDigits (n : ℕ) : List Char :=
  [digitChar (n / 10), digitChar (n % 10)]

/-- Zero-padded four-digit decimal rendering (`%Y` for years up to 9999). -/
def fourDigits (n : ℕ) : List Char :=
  [digitChar (n / 1000), digitChar (n / 100 % 10), digitChar (n / 10 % 10),
    digitChar (n % 10)]

/-- `time.strftime("%H:%M")`, as the list of characters of the CSV field. -/
def strftime_HM (t : PyTime) : List Char :=
  twoDigits t.hour ++ [':'] ++ twoDigits t.minute

/-- `date.strftime("%Y-%m-%d")`, as the list of characters of the CSV field. -/
def strftime_Ymd (d : PyDate) : List Char :=
  fourDigits d.year ++ ['-'] ++ twoDigits d.month ++ ['-'] ++ twoDigits d.day

/-- Value of a decimal digit character. -/
def digitVal (c : Char) : Option ℕ :=
  if 48 ≤ c.toNat ∧ c.toNat ≤ 57 then some (c.toNat - 48) else none

/-- `datetime.strptime(s, "%H:%M").time()` on a two-digit-field rendering:
two digit pairs separated by a colon, hour at most 23, minute at most 59;
seconds and microseconds of the constructed time are zero. -/
def strptime_HM (s : List Char) : Option PyTime :=
  match s with
  | [h1, h2, sep, m1, m2] =>
      if sep = ':' then
        match digitVal h1, digitVal h2, digitVal m1, digitVal m2 with
        | some a, some b, some c, some d =>
            if 10 * a + b ≤ 23 ∧ 10 * c + d ≤ 59 then
              some ⟨10 * a + b, 10 * c + d, 0, 0⟩
            else none
        | _, _, _, _ => none
      else none
  | _ => none

/-- `datetime.strptime(s, "%Y-%m-%d").date()` on a zero-padded rendering:
the constructed date must satisfy the `datetime.date` range checks. -/
def strptime_Ymd (s : List Char) : Option PyDate :=
  match s with
  | [y1, y2, y3, y4, sep1, m1, m2, sep2, d1, d2] =>
      if sep1 = '-' ∧ sep2 = '-' then
        match digitVal y1, digitVal y2, digitVal y3, digitVal y4,
            digitVal m1, digitVal m2, digitVal d1, digitVal d2 with
        | some a, some b, some c, some d, some e, some f, some g, some h =>
            if 1 ≤ 1000 * a + 100 * b + 10 * c + d ∧ 1 ≤ 10 * e + f ∧
                10 * e + f ≤ 12 ∧ 1 ≤ 10 * g + h ∧
                10 * g + h ≤ monthLength (1000 * a + 100 * b + 10 * c + d)
                  (10 * e + f) then
              some ⟨1000 * a + 100 * b + 10 * c + d, 10 * e + f, 10 * g + h⟩
            else none
        | _, _, _, _, _, _, _, _ => none
      else none
  | _ => none

/-! ## Scheduler change-detection token (`_build_scheduler_context` and
`scheduler_updates`) -/

/-- The scheduler GET filters, after the view's status-code validation. -/
structure SchedFilters where
  teacher : Option ℕ
  classroom : Option ℕ
  subject : Option ℕ
  course : Option ℕ
  group : Option ℕ
  date : Option ℤ
  status : Option String

/-- The status-filter querysets of `_build_scheduler_context`. -/
def matchesStatus (st : Option String) (today : ℤ) (now : ℕ)
    (e : ScheduleEntry) : Bool :=
  match st with
  | some "active" =>
      e.date == today && decide (e.start_time ≤ now) &&
        decide (now ≤ e.end_time)
  | some "upcoming" =>
      decide (e.date > today) || (e.date == today && decide (e.start_time > now))
  | some "finished" =>
      decide (e.date < today) || (e.date == today && decide (e.end_time < now))
  | _ => true

/-- The field filters of `_build_scheduler_context`. -/
def matchesFilters (flt : SchedFilters) (today : ℤ) (now : ℕ)
    (e : ScheduleEntry) : Bool :=
  (match flt.teacher with | some t => e.teacher == t | none => true) &&
  (match flt.classroom with | some c => e.classroom == c | none => true) &&
  (match flt.subject with | some s => e.subject == s | none => true) &&
  (match flt.course with | some c => e.course == c | none => true) &&
  (match flt.group with | some g => e.group == g | none => true) &&
  (match flt.date with | some d => e.date == d | none => true) &&
  matchesStatus flt.status today now e

/-- The display names the scheduler joins in via `select_related`; the token
reads usernames and display names through these resolver functions. -/
structure NameResolver where
  teacherUsername : ℕ → String
  classroomName : ℕ → String
  subjectDisplay : ℕ → String
  courseDisplay : ℕ → String
  groupDisplay : ℕ → String

/-- `recurrence_counts.get(entry.recurrence_group, 1)`: the store-wide
member count of the entry's series, 1 for standalone entries. -/
def seriesSize (store : List ScheduleEntry) (e : ScheduleEntry) : ℕ :=
  match e.recurrence_group with
  | some g => (store.filter (memberOf g)).length
  | none => 1

/-- The entries of the rendered month window, in queryset order:
filters applied, date within the padded display window, ordered by
`(date, start_time, id)`. -/
def visibleEntries (flt : SchedFilters) (y m : ℕ) (today : ℤ) (now : ℕ)
    (store : List ScheduleEntry) : List ScheduleEntry :=
  sortEntries (store.filter (fun e =>
    matchesFilters flt today now e &&
    decide (calendarWindowStart y m ≤ e.date) &&
    decide (e.date ≤ calendarWindowEnd y m)))

/-- One visible entry's contribution to the state token: the joined field
list of `state_basis` (identity, scheduling fields, display names, activity
flag, series size and index, and derived status). -/
def entryStateBasis (R : NameResolver) (store : List ScheduleEntry)
    (today : ℤ) (now : ℕ) (e : ScheduleEntry) : String :=
  String.intercalate ":" [
    toString e.id, toString e.date, toString e.start_time,
    toString e.end_time,
    toString e.teacher, R.teacherUsername e.teacher,
    toString e.classroom, R.classroomName e.classroom,
    toString e.subject, R.subjectDisplay e.subject,
    toString e.course, R.courseDisplay e.course,
    toString e.group, R.groupDisplay e.group,
    (if get_status e today now == "active" then "1" else "0"),
    toString (seriesSize store e), toString e.recurrence_index,
    get_status e today now]

/-- `calendar_state_token`: the hash (`hashlib.sha256(...).hexdigest()`,
passed in as `h`) of the joined per-entry basis, or the literal `"0"` when
the window shows no entries. -/
def calendar_state_token (h : String → String) (R : NameResolver)
    (flt : SchedFilters) (y m : ℕ) (today : ℤ) (now : ℕ)
    (store : List ScheduleEntry) : String :=
  let basis := (visibleEntries flt y m today now store).map
    (entryStateBasis R store today now)
  if basis.isEmpty then "0" else h (String.intercalate "|" basis)

/-- The `changed` flag of the `scheduler_updates` JSON response: false
exactly when the client token matches the freshly computed token. -/
def scheduler_updates_changed (h : String → String) (R : NameResolver)
    (flt : SchedFilters) (y m : ℕ) (today : ℤ) (now : ℕ)
    (store : List ScheduleEntry) (clientToken : Option String) : Bool :=
  !(clientToken == some (calendar_state_token h R flt y m today now store))

instance (store : List ScheduleEntry) : Decidable (nodupIds store) := by
  unfold nodupIds
  infer_instance

instance (nextId : ℕ) (store : List ScheduleEntry) :
    Decidable (freshIds nextId store) := by
  unfold freshIds
  infer_instance

instance (entryId : ℕ) (store : List ScheduleEntry) :
    Decidable (targetStandalone entryId store) := by
  unfold targetStandalone
  infer_instance

instance (store : List ScheduleEntry) : Decidable (seriesInvariant store) := by
  unfold seriesInvariant
  infer_instance

instance (t : PyTime) : Decidable (validTime t) := by
  unfold validTime
  infer_instance

instance (d : PyDate) : Decidable (validDate d) := by
  unfold validDate
  infer_instance

/-- The 1-based rank an occurrence holds within its series after a reindex:
its position in the `(date, start_time, id)`-ordered member list, plus one. -/
def seriesRank (entryId grp : ℕ) (store : List ScheduleEntry) : ℕ :=
  ((sortEntries (store.filter (memberOf grp))).findIdx?
    (fun x => x.id == entryId)).getD 0 + 1

/-- The row that ends up at 0-based target position `k` after a series
resize: the old member of that rank updated in place when one exists
(ranks below the old member count), else a freshly created row. -/
def resizeTargetRow (grp : ℕ) (f : EditFields) (i n : ℕ) (newStart : ℤ)
    (es : List ScheduleEntry) (nextId k : ℕ) : ScheduleEntry :=
  if h : k < es.length then
    resizeUpd f i n newStart k (reindexMember es es.length (es.get ⟨k, h⟩))
  else
    mkSeriesEntry (nextId + (k - es.length)) f grp i n
      (newStart + (i * k : ℕ)) (k + 1)

/-- The member rows of a series after a resize to `n` occurrences, in rank
order. -/
def resizeTargetList (grp : ℕ) (f : EditFields) (i n : ℕ) (newStart : ℤ)
    (es : List ScheduleEntry) (nextId : ℕ) : List ScheduleEntry :=
  (List.range n).map (resizeTargetRow grp f i n newStart es nextId)

/-! ## Concrete sample data for instantiating the theorems -/

/-- A member row of a small concrete series (group 5, weekly interval),
used to instantiate hypotheses of the theorems below on explicit tables. -/
def mkSample (rowId : ℕ) (d : ℤ) (st et : ℕ) (rank tot : ℕ) : ScheduleEntry :=
  { id := rowId
    teacher := 1
    classroom := 1
    subject := 1
    course := 1
    group := 1
    date := d
    start_time := st
    end_time := et
    recurrence_group := some 5
    recurrence_interval_days := some 7
    recurrence_total_occurrences := some tot
    recurrence_index := some rank }

/-- A three-member weekly series dated 10, 17, 24 with consistent metadata. -/
def sampleStore : List ScheduleEntry :=
  [mkSample 1 10 540 600 1 3, mkSample 2 17 540 600 2 3,
    mkSample 3 24 540 600 3 3]

/-- A two-member series of which the first member lies in the past relative
to day 17. -/
def samplePastStore : List ScheduleEntry :=
  [mkSample 1 10 540 600 1 2, mkSample 2 17 540 600 2 2]

/-- A two-member series whose stored ranks and totals are stale (both rows
claim rank 2 of 7), as left behind by an unindexed membership change. -/
def sampleStaleStore : List ScheduleEntry :=
  [mkSample 1 10 540 600 2 7, mkSample 2 17 540 600 2 7]

/-- Concrete submitted form data dated day 100. -/
def sampleFields : EditFields :=
  { teacher := 1
    classroom := 1
    subject := 1
    course := 1
    group := 1
    date := 100
    start_time := 540
    end_time := 600 }

/-- The scheduler's filter state with no filter applied. -/
def sampleFilters : SchedFilters :=
  { teacher := none
    classroom := none
    subject := none
    course := none
    group := none
    date := none
    status := none }

/-- A trivial display-name resolver for instantiating the token theorems. -/
def sampleResolver : NameResolver :=
  { teacherUsername := fun _ => "t"
    classroomName := fun _ => "c"
    subjectDisplay := fun _ => "s"
    courseDisplay := fun _ => "co"
    groupDisplay := fun _ => "g" }

/-! ## Generic list lemmas used throughout -/

/-- A permutation of a sorted list that is itself sorted is equal to it,
assuming antisymmetry of the order on the members of the list (this replaces
the global `IsAntisymm` assumption: our row order is only antisymmetric on
lists with distinct primary keys). -/
theorem sorted_perm_eq_of_antisymmOn {α : Type} {r : α → α → Prop}
    {l₁ l₂ : List α}
    (anti : ∀ a ∈ l₂, ∀ b ∈ l₂, r a b → r b a → a = b)
    (hp : l₁.Perm l₂) (hs₁ : l₁.Sorted r) (hs₂ : l₂.Sorted r) : l₁ = l₂ := by
  induction l₁ generalizing l₂ with
  | nil => exact hp.nil_eq
  | cons a t₁ ih =>
    have ha₂ : a ∈ l₂ := hp.subset (List.mem_cons_self _ _)
    obtain ⟨u₂, v₂, rfl⟩ := List.append_of_mem ha₂
    have hp' : t₁.Perm (u₂ ++ v₂) :=
      (List.perm_cons a).mp (hp.trans List.perm_middle)
    have hs₂' : (u₂ ++ v₂).Sorted r := hs₂.sublist (by simp)
    have anti' : ∀ x ∈ u₂ ++ v₂, ∀ y ∈ u₂ ++ v₂, r x y → r y x → x = y := by
      intro x hx y hy
      have hx₂ : x ∈ u₂ ++ a :: v₂ := by
        rcases List.mem_append.mp hx with h | h
        · exact List.mem_append.mpr (Or.inl h)
        · exact List.mem_append.mpr (Or.inr (List.mem_cons_of_mem _ h))
      have hy₂ : y ∈ u₂ ++ a :: v₂ := by
        rcases List.mem_append.mp hy with h | h
        · exact List.mem_append.mpr (Or.inl h)
        · exact List.mem_append.mpr (Or.inr (List.mem_cons_of_mem _ h))
      exact anti x hx₂ y hy₂
    obtain rfl : t₁ = u₂ ++ v₂ := ih anti' hp' (List.Sorted.of_cons hs₁) hs₂'
    have hall : ∀ x ∈ u₂, x = a := by
      intro x hx
      have hxl₂ : x ∈ u₂ ++ a :: v₂ := List.mem_append.mpr (Or.inl hx)
      have hra : r x a :=
        (List.pairwise_append.mp hs₂).2.2 x hx a (List.mem_cons_self _ _)
      have har : r a x :=
        List.rel_of_sorted_cons hs₁ x (List.mem_append.mpr (Or.inl hx))
      exact anti x hxl₂ a ha₂ hra har
    have h₁ : a :: (u₂ ++ v₂) = (a :: u₂) ++ v₂ := by simp
    have h₂ : u₂ ++ a :: v₂ = (u₂ ++ [a]) ++ v₂ := by simp
    rw [h₁, h₂]
    have hrep₁ : a :: u₂ = List.replicate (u₂.length + 1) a := by
      rw [List.eq_replicate_iff]
      refine ⟨by simp, ?_⟩
      intro b hb
      rcases List.mem_cons.mp hb with rfl | hb
      · rfl
      · exact hall b hb
    have hrep₂ : u₂ ++ [a] = List.replicate (u₂.length + 1) a := by
      rw [List.eq_replicate_iff]
      refine ⟨by simp, ?_⟩
      intro b hb
      rcases List.mem_append.mp hb with hb | hb
      · exact hall b hb
      · rw [List.mem_singleton.mp hb]
    rw [hrep₁, hrep₂]

/-- In a list of rows with pairwise-distinct values of `f`, looking up the
`f`-value of the row at position `i` finds exactly position `i`. -/
theorem findIdx?_of_nodup_map {α β : Type} [DecidableEq β] (f : α → β)
    {l : List α} (h : (l.map f).Nodup) {i : ℕ} (hi : i < l.length) :
    l.findIdx? (fun x => f x == f (l.get ⟨i, hi⟩)) = some i := by
  rw [List.findIdx?_eq_some_iff_getElem]
  refine ⟨hi, by simp [List.get_eq_getElem], ?_⟩
  intro j hji
  have hj : j < l.length := lt_trans hji hi
  simp only [beq_iff_eq, Bool.not_eq_true, Bool.eq_false_iff, ne_eq]
  intro hcontra
  have hfeq : f (l.get ⟨j, hj⟩) = f (l.get ⟨i, hi⟩) := by
    simpa [List.get_eq_getElem] using hcontra
  have : l.get ⟨j, hj⟩ = l.get ⟨i, hi⟩ :=
    List.inj_on_of_nodup_map h (l.get_mem _ _) (l.get_mem _ _) hfeq
  have hmap : l.map f ≠ [] := by
    intro hnil
    rw [List.map_eq_nil_iff] at hnil
    subst hnil
    exact absurd hi (by simp)
  have hji' : j = i := by
    have hgi : (l.map f).get ⟨i, by simpa using hi⟩ = f (l.get ⟨i, hi⟩) := by
      simp [List.get_eq_getElem]
    have hgj : (l.map f).get ⟨j, by simpa using hj⟩ = f (l.get ⟨j, hj⟩) := by
      simp [List.get_eq_getElem]
    have h5 : (l.map f).get ⟨j, by simpa using hj⟩ =
        (l.map f).get ⟨i, by simpa using hi⟩ := by
      rw [hgi, hgj, hfeq]
    have h6 := (h.get_inj_iff).mp h5
    exact congrArg Fin.val h6
  omega

/-- Row ids are preserved: `f`-image of members is injective specialised to
primary keys of schedule entries. -/
theorem entry_id_inj {l : List ScheduleEntry}
    (h : (l.map (fun e => e.id)).Nodup) :
    ∀ a ∈ l, ∀ b ∈ l, a.id = b.id → a = b := by
  intro a ha b hb hab
  exact List.inj_on_of_nodup_map h ha hb hab

/-- `entryKeyLE` is antisymmetric up to primary-key equality. -/
theorem entryKeyLE_antisymm_id {a b : ScheduleEntry}
    (h₁ : entryKeyLE a b) (h₂ : entryKeyLE b a) : a.id = b.id := by
  unfold entryKeyLE at h₁ h₂
  omega

theorem sortEntries_sorted (l : List ScheduleEntry) :
    (sortEntries l).Sorted entryKeyLE :=
  List.sorted_insertionSort entryKeyLE l

theorem sortEntries_perm (l : List ScheduleEntry) : (sortEntries l).Perm l :=
  List.perm_insertionSort entryKeyLE l

/-- Sorting any permutation of a `(date, start_time, id)`-sorted list of rows
with distinct ids reproduces that list. -/
theorem sortEntries_eq_of_perm {l l' : List ScheduleEntry}
    (hp : l.Perm l') (hs : l'.Sorted entryKeyLE)
    (hid : (l'.map (fun e => e.id)).Nodup) : sortEntries l = l' := by
  refine sorted_perm_eq_of_antisymmOn ?_ ((sortEntries_perm l).trans hp)
    (sortEntries_sorted l) hs
  intro a ha b hb hab hba
  exact entry_id_inj hid a ha b hb (entryKeyLE_antisymm_id hab hba)

/-! ## What one `update_recurrence_metadata` run does -/

theorem reindexMember_id (es : List ScheduleEntry) (t : ℕ) (e : ScheduleEntry) :
    (reindexMember es t e).id = e.id := by
  unfold reindexMember
  cases es.findIdx? (fun x => x.id == e.id) <;> rfl

theorem reindexMember_date (es : List ScheduleEntry) (t : ℕ)
    (e : ScheduleEntry) : (reindexMember es t e).date = e.date := by
  unfold reindexMember
  cases es.findIdx? (fun x => x.id == e.id) <;> rfl

theorem reindexMember_start_time (es : List ScheduleEntry) (t : ℕ)
    (e : ScheduleEntry) : (reindexMember es t e).start_time = e.start_time := by
  unfold reindexMember
  cases es.findIdx? (fun x => x.id == e.id) <;> rfl

theorem reindexMember_end_time (es : List ScheduleEntry) (t : ℕ)
    (e : ScheduleEntry) : (reindexMember es t e).end_time = e.end_time := by
  unfold reindexMember
  cases es.findIdx? (fun x => x.id == e.id) <;> rfl

theorem reindexMember_recurrence_group (es : List ScheduleEntry) (t : ℕ)
    (e : ScheduleEntry) :
    (reindexMember es t e).recurrence_group = e.recurrence_group := by
  unfold reindexMember
  cases es.findIdx? (fun x => x.id == e.id) <;> rfl

theorem reindexMember_interval (es : List ScheduleEntry) (t : ℕ)
    (e : ScheduleEntry) :
    (reindexMember es t e).recurrence_interval_days =
      e.recurrence_interval_days := by
  unfold reindexMember
  cases es.findIdx? (fun x => x.id == e.id) <;> rfl

theorem reindexMember_teacher (es : List ScheduleEntry) (t : ℕ)
    (e : ScheduleEntry) : (reindexMember es t e).teacher = e.teacher := by
  unfold reindexMember
  cases es.findIdx? (fun x => x.id == e.id) <;> rfl

theorem reindexMember_classroom (es : List ScheduleEntry) (t : ℕ)
    (e : ScheduleEntry) : (reindexMember es t e).classroom = e.classroom := by
  unfold reindexMember
  cases es.findIdx? (fun x => x.id == e.id) <;> rfl

theorem reindexMember_subject (es : List ScheduleEntry) (t : ℕ)
    (e : ScheduleEntry) : (reindexMember es t e).subject = e.subject := by
  unfold reindexMember
  cases es.findIdx? (fun x => x.id == e.id) <;> rfl

theorem reindexMember_course (es : List ScheduleEntry) (t : ℕ)
    (e : ScheduleEntry) : (reindexMember es t e).course = e.course := by
  unfold reindexMember
  cases es.findIdx? (fun x => x.id == e.id) <;> rfl

theorem reindexMember_group (es : List ScheduleEntry) (t : ℕ)
    (e : ScheduleEntry) : (reindexMember es t e).group = e.group := by
  unfold reindexMember
  cases es.findIdx? (fun x => x.id == e.id) <;> rfl

/-- Looking up the id of the row at sorted position `i` assigns rank `i + 1`. -/
theorem reindexMember_at_rank {es : List ScheduleEntry}
    (hid : (es.map (fun e => e.id)).Nodup) (t : ℕ) {i : ℕ}
    (hi : i < es.length) :
    reindexMember es t (es.get ⟨i, hi⟩) =
      { es.get ⟨i, hi⟩ with
        recurrence_index := some (i + 1)
        recurrence_total_occurrences := some t } := by
  unfold reindexMember
  rw [findIdx?_of_nodup_map (fun e => e.id) hid hi]

/-- The per-row map actually applied by a reindex run. -/
def reindexRowMap (grp : ℕ) (es : List ScheduleEntry) (e : ScheduleEntry) :
    ScheduleEntry :=
  if memberOf grp e then reindexMember es es.length e else e

theorem update_recurrence_metadata_eq_map (grp : ℕ)
    (store : List ScheduleEntry)
    (hne : sortEntries (store.filter (memberOf grp)) ≠ []) :
    update_recurrence_metadata (some grp) store =
      store.map (reindexRowMap grp (sortEntries (store.filter (memberOf grp)))) := by
  unfold update_recurrence_metadata reindexRowMap
  simp only []
  rw [if_neg (by simpa [List.length_eq_zero] using hne)]

theorem reindexRowMap_id (grp : ℕ) (es : List ScheduleEntry)
    (e : ScheduleEntry) : (reindexRowMap grp es e).id = e.id := by
  unfold reindexRowMap
  by_cases h : memberOf grp e <;> simp [h, reindexMember_id]

theorem reindexRowMap_recurrence_group (grp : ℕ) (es : List ScheduleEntry)
    (e : ScheduleEntry) :
    (reindexRowMap grp es e).recurrence_group = e.recurrence_group := by
  unfold reindexRowMap
  by_cases h : memberOf grp e <;> simp [h, reindexMember_recurrence_group]

/-- A reindex run never changes the sequence of primary keys of the table. -/
theorem ids_update_recurrence_metadata (g : Option ℕ)
    (store : List ScheduleEntry) :
    (update_recurrence_metadata g store).map (fun e => e.id) =
      store.map (fun e => e.id) := by
  match g with
  | none => rfl
  | some grp =>
    by_cases hne : sortEntries (store.filter (memberOf grp)) = []
    · unfold update_recurrence_metadata
      simp only []
      rw [if_pos (by simp [hne])]
    · rw [update_recurrence_metadata_eq_map grp store hne, List.map_map]
      exact List.map_congr_left (fun e _ => reindexRowMap_id _ _ e)

/-- Reindexing one group leaves the member rows of every other group
untouched. -/
theorem filter_update_recurrence_metadata_other {grp g' : ℕ} (hne : g' ≠ grp)
    (store : List ScheduleEntry) :
    (update_recurrence_metadata (some grp) store).filter (memberOf g') =
      store.filter (memberOf g') := by
  by_cases h0 : sortEntries (store.filter (memberOf grp)) = []
  · unfold update_recurrence_metadata
    simp only []
    rw [if_pos (by simp [h0])]
  · rw [update_recurrence_metadata_eq_map grp store h0]
    rw [List.filter_map]
    have hpres : ∀ e : ScheduleEntry,
        memberOf g' (reindexRowMap grp (sortEntries (store.filter (memberOf grp))) e) =
          memberOf g' e := by
      intro e
      unfold memberOf
      rw [reindexRowMap_recurrence_group]
    have hfe : (fun e => memberOf g'
        (reindexRowMap grp (sortEntries (store.filter (memberOf grp))) e)) =
        memberOf g' := funext hpres
    rw [show (memberOf g' ∘ reindexRowMap grp
        (sortEntries (store.filter (memberOf grp)))) = memberOf g' from hfe]
    refine (List.map_congr_left ?_).trans (List.map_id _)
    intro e he
    have hg' : memberOf g' e := List.of_mem_filter he
    have hrg : e.recurrence_group = some g' := by
      unfold memberOf at hg'
      simpa using hg'
    have hnot : memberOf grp e = false := by
      unfold memberOf
      simp [hrg, hne]
    simp [reindexRowMap, hnot]

/-- Reindexing one group acts on the member rows of that group by the rank
assignment map. -/
theorem filter_update_recurrence_metadata_self (grp : ℕ)
    (store : List ScheduleEntry) :
    (update_recurrence_metadata (some grp) store).filter (memberOf grp) =
      (store.filter (memberOf grp)).map
        (reindexMember (sortEntries (store.filter (memberOf grp)))
          (sortEntries (store.filter (memberOf grp))).length) := by
  by_cases h0 : sortEntries (store.filter (memberOf grp)) = []
  · have hfil : store.filter (memberOf grp) = [] := by
      have := sortEntries_perm (store.filter (memberOf grp))
      rw [h0] at this
      exact (this.nil_eq).symm
    unfold update_recurrence_metadata
    simp only []
    rw [if_pos (by simp [h0]), hfil]
    simp
  · rw [update_recurrence_metadata_eq_map grp store h0, List.filter_map]
    have hfe : (memberOf grp ∘ reindexRowMap grp
        (sortEntries (store.filter (memberOf grp)))) = memberOf grp := by
      funext e
      show memberOf grp (reindexRowMap grp _ e) = memberOf grp e
      unfold memberOf
      rw [reindexRowMap_recurrence_group]
    rw [hfe]
    refine List.map_congr_left ?_
    intro e he
    have hg : memberOf grp e := List.of_mem_filter he
    unfold reindexRowMap
    rw [if_pos hg]

/-! ## Primary-key bookkeeping -/

theorem nodup_ids_filter (p : ScheduleEntry → Bool) {store : List ScheduleEntry}
    (hid : nodupIds store) :
    ((store.filter p).map (fun e => e.id)).Nodup := by
  exact List.Nodup.sublist (List.Sublist.map _ (List.filter_sublist store)) hid

theorem nodup_ids_sortEntries {l : List ScheduleEntry}
    (hid : (l.map (fun e => e.id)).Nodup) :
    ((sortEntries l).map (fun e => e.id)).Nodup := by
  exact (((sortEntries_perm l).map (fun e => e.id)).nodup_iff).mpr hid

theorem nodup_ids_sortEntriesIdx {l : List ScheduleEntry}
    (hid : (l.map (fun e => e.id)).Nodup) :
    ((sortEntriesIdx l).map (fun e => e.id)).Nodup := by
  exact (((List.perm_insertionSort entryIdxKeyLE l).map (fun e => e.id)).nodup_iff).mpr hid

/-! ## The sorted member list after a reindex -/

/-- `reindexMember` does not move rows around in the `(date, start_time, id)`
order, so sorting commutes with it. -/
theorem sortEntries_map_reindexMember (es : List ScheduleEntry) (t : ℕ)
    (l : List ScheduleEntry) :
    sortEntries (l.map (reindexMember es t)) =
      (sortEntries l).map (reindexMember es t) := by
  unfold sortEntries
  refine (List.map_insertionSort entryKeyLE entryKeyLE _ l ?_).symm
  intro a _ b _
  unfold entryKeyLE
  rw [reindexMember_date, reindexMember_date, reindexMember_start_time,
    reindexMember_start_time, reindexMember_id, reindexMember_id]

/-- After reindexing `grp`, the canonically ordered member list is the old
canonically ordered member list with ranks and totals written in. -/
theorem sorted_members_after_reindex (grp : ℕ) (store : List ScheduleEntry) :
    sortEntries ((update_recurrence_metadata (some grp) store).filter
        (memberOf grp)) =
      (sortEntries (store.filter (memberOf grp))).map
        (reindexMember (sortEntries (store.filter (memberOf grp)))
          (sortEntries (store.filter (memberOf grp))).length) := by
  rw [filter_update_recurrence_metadata_self]
  exact sortEntries_map_reindexMember _ _ _

/-- Writing back the values a row already carries is the identity. -/
theorem meta_update_self {e : ScheduleEntry} {rv tv : Option ℕ}
    (h1 : e.recurrence_index = rv) (h2 : e.recurrence_total_occurrences = tv) :
    ({ e with recurrence_index := rv, recurrence_total_occurrences := tv } :
      ScheduleEntry) = e := by
  cases e
  simp_all

/-! ## The recurrence invariant and reindexing -/

theorem seriesOk_of_filter_eq {g' : ℕ} {s1 s2 : List ScheduleEntry}
    (h : s1.filter (memberOf g') = s2.filter (memberOf g')) :
    seriesOk g' s1 = seriesOk g' s2 := by
  unfold seriesOk
  rw [h]

theorem seriesOk_of_no_members {g : ℕ} {store : List ScheduleEntry}
    (h : store.filter (memberOf g) = []) : seriesOk g store = true := by
  unfold seriesOk
  rw [h]
  rfl

/-- A reindex run establishes the invariant for the reindexed group. -/
theorem seriesOk_update_self (grp : ℕ) {store : List ScheduleEntry}
    (hid : nodupIds store) :
    seriesOk grp (update_recurrence_metadata (some grp) store) = true := by
  have hnodup : ((sortEntries (store.filter (memberOf grp))).map
      (fun e => e.id)).Nodup :=
    nodup_ids_sortEntries (nodup_ids_filter _ hid)
  unfold seriesOk
  rw [sorted_members_after_reindex grp store]
  rw [List.all_eq_true]
  intro i hi
  rw [List.mem_range, List.length_map] at hi
  have hget : ((sortEntries (store.filter (memberOf grp))).map
      (reindexMember (sortEntries (store.filter (memberOf grp)))
        (sortEntries (store.filter (memberOf grp))).length)).get? i =
      some (reindexMember (sortEntries (store.filter (memberOf grp)))
        (sortEntries (store.filter (memberOf grp))).length
        ((sortEntries (store.filter (memberOf grp))).get ⟨i, hi⟩)) := by
    rw [List.get?_eq_getElem?, List.getElem?_eq_getElem (by simpa using hi)]
    rw [List.getElem_map]
    rfl
  rw [hget, reindexMember_at_rank hnodup _ hi]
  simp

/-! ## Idempotence of reindexing -/

/-- A member row of the store appears in the canonically ordered member
list. -/
theorem mem_sorted_members {grp : ℕ} {store : List ScheduleEntry}
    {e : ScheduleEntry} (he : e ∈ store) (hm : memberOf grp e = true) :
    e ∈ sortEntries (store.filter (memberOf grp)) := by
  unfold sortEntries
  rw [List.mem_insertionSort]
  exact List.mem_filter.mpr ⟨he, hm⟩


/-- Evaluation of `reindexMember` at a row whose id is found at position
`j`. -/
theorem reindexMember_eval {es : List ScheduleEntry} {e : ScheduleEntry}
    {j : ℕ} (t : ℕ) (h : es.findIdx? (fun x => x.id == e.id) = some j) :
    reindexMember es t e =
      { e with
        recurrence_index := some (j + 1)
        recurrence_total_occurrences := some t } := by
  unfold reindexMember
  rw [h]

/-- Evaluation of `reindexMember` when the row's id is absent. -/
theorem reindexMember_eval_none {es : List ScheduleEntry} {e : ScheduleEntry}
    (t : ℕ) (h : es.findIdx? (fun x => x.id == e.id) = none) :
    reindexMember es t e = e := by
  unfold reindexMember
  rw [h]

/-- Rewriting a row that a reindex pass has already rewritten (against the
already-rewritten member list) changes nothing. -/
theorem reindexMember_stable {es : List ScheduleEntry} (t : ℕ)
    {e : ScheduleEntry} (he : ∃ x ∈ es, x.id = e.id) :
    reindexMember (es.map (reindexMember es t)) t (reindexMember es t e) =
      reindexMember es t e := by
  obtain ⟨j, hj⟩ : ∃ j, es.findIdx? (fun x => x.id == e.id) = some j := by
    rcases hfi : es.findIdx? (fun x => x.id == e.id) with _ | j
    · rw [List.findIdx?_eq_none_iff] at hfi
      obtain ⟨x, hx, hxid⟩ := he
      have := hfi x hx
      simp [hxid] at this
    · exact ⟨j, hfi⟩
  have hrm : reindexMember es t e =
      { e with
        recurrence_index := some (j + 1)
        recurrence_total_occurrences := some t } :=
    reindexMember_eval t hj
  have houter : (es.map (reindexMember es t)).findIdx?
      (fun x => x.id == (reindexMember es t e).id) = some j := by
    rw [List.findIdx?_map]
    have hcomp : ((fun x => x.id == (reindexMember es t e).id) ∘
        (reindexMember es t)) = (fun x => x.id == e.id) := by
      funext x
      simp only [Function.comp]
      rw [reindexMember_id, reindexMember_id]
    rw [hcomp, hj]
  rw [reindexMember_eval t houter]
  exact meta_update_self (by rw [hrm]) (by rw [hrm])

/-- Running `update_recurrence_metadata` twice yields exactly the state of
running it once. -/
theorem update_recurrence_metadata_idem (g : Option ℕ)
    (store : List ScheduleEntry) :
    update_recurrence_metadata g (update_recurrence_metadata g store) =
      update_recurrence_metadata g store := by
  match g with
  | none => rfl
  | some grp =>
    by_cases h0 : sortEntries (store.filter (memberOf grp)) = []
    · have hstore : update_recurrence_metadata (some grp) store = store := by
        unfold update_recurrence_metadata
        simp only []
        rw [if_pos (by simp [h0])]
      rw [hstore, hstore]
    · have hsorted := sorted_members_after_reindex grp store
      have hne2 : sortEntries ((update_recurrence_metadata (some grp)
          store).filter (memberOf grp)) ≠ [] := by
        rw [hsorted]
        intro hcon
        exact h0 (List.map_eq_nil_iff.mp hcon)
      rw [update_recurrence_metadata_eq_map grp _ hne2]
      refine Eq.trans (List.map_congr_left ?_)
        (List.map_id (update_recurrence_metadata (some grp) store))
      intro e' he'
      rw [hsorted]
      have hmap := update_recurrence_metadata_eq_map grp store h0
      rw [hmap] at he'
      obtain ⟨e, he, rfl⟩ := List.mem_map.mp he'
      by_cases hm : memberOf grp e = true
      · have hrow : reindexRowMap grp
            (sortEntries (store.filter (memberOf grp))) e =
            reindexMember (sortEntries (store.filter (memberOf grp)))
              (sortEntries (store.filter (memberOf grp))).length e := by
          unfold reindexRowMap
          rw [if_pos hm]
        rw [hrow]
        have hm' : memberOf grp (reindexMember
            (sortEntries (store.filter (memberOf grp)))
            (sortEntries (store.filter (memberOf grp))).length e) = true := by
          unfold memberOf at hm ⊢
          rw [reindexMember_recurrence_group]
          exact hm
        unfold reindexRowMap
        rw [if_pos hm', List.length_map]
        exact reindexMember_stable _ ⟨e, mem_sorted_members he hm, rfl⟩
      · have hmf : memberOf grp e = false := Bool.eq_false_iff.mpr hm
        have hrow : reindexRowMap grp
            (sortEntries (store.filter (memberOf grp))) e = e := by
          unfold reindexRowMap
          rw [if_neg (by simp [hmf])]
        rw [hrow]
        unfold reindexRowMap
        rw [if_neg (by simp [hmf])]
        rfl

/-- After one reindex run, a second run has nothing to save. -/
theorem reindexDirtyCount_after_update {g : Option ℕ}
    {store : List ScheduleEntry} (hid : nodupIds store) :
    reindexDirtyCount g (update_recurrence_metadata g store) = 0 := by
  match g with
  | none => rfl
  | some grp =>
    by_cases h0 : sortEntries (store.filter (memberOf grp)) = []
    · have hstore : update_recurrence_metadata (some grp) store = store := by
        unfold update_recurrence_metadata
        simp only []
        rw [if_pos (by simp [h0])]
      rw [hstore]
      unfold reindexDirtyCount
      simp only []
      rw [if_pos (by simp [h0])]
    · have hsorted := sorted_members_after_reindex grp store
      have hnodup : ((sortEntries (store.filter (memberOf grp))).map
          (fun e => e.id)).Nodup :=
        nodup_ids_sortEntries (nodup_ids_filter _ hid)
      unfold reindexDirtyCount
      simp only []
      rw [if_neg]
      · rw [List.countP_eq_zero]
        intro i hi
        rw [List.mem_range, hsorted, List.length_map] at hi
        rw [hsorted]
        have hget : ((sortEntries (store.filter (memberOf grp))).map
            (reindexMember (sortEntries (store.filter (memberOf grp)))
              (sortEntries (store.filter (memberOf grp))).length)).get? i =
            some (reindexMember (sortEntries (store.filter (memberOf grp)))
              (sortEntries (store.filter (memberOf grp))).length
              ((sortEntries (store.filter (memberOf grp))).get ⟨i, hi⟩)) := by
          rw [List.get?_eq_getElem?, List.getElem?_eq_getElem (by simpa using hi)]
          rw [List.getElem_map]
          rfl
        rw [hget, reindexMember_at_rank hnodup _ hi]
        simp
      · rw [hsorted, List.length_map]
        simpa [List.length_eq_zero] using h0

/-! ## Materialisation of a recurring series -/

/-- The batch of rows the recurring create loop produces. -/
def materializedRows (nextId grp : ℕ) (f : EditFields) (i n : ℕ) :
    List ScheduleEntry :=
  (List.range n).map (fun k =>
    mkSeriesEntry (nextId + k) f grp i n (f.date + (i * k : ℕ)) (k + 1))

theorem materializedRows_length (nextId grp : ℕ) (f : EditFields) (i n : ℕ) :
    (materializedRows nextId grp f i n).length = n := by
  unfold materializedRows
  rw [List.length_map, List.length_range]

theorem materializedRows_get {nextId grp : ℕ} {f : EditFields} {i n k : ℕ}
    (hk : k < (materializedRows nextId grp f i n).length) :
    (materializedRows nextId grp f i n).get ⟨k, hk⟩ =
      mkSeriesEntry (nextId + k) f grp i n (f.date + (i * k : ℕ)) (k + 1) := by
  unfold materializedRows
  rw [List.get_eq_getElem, List.getElem_map]
  simp [List.getElem_range]

/-- With a positive interval the created rows are strictly increasing in
date, hence already in canonical order. -/
theorem materializedRows_sorted (nextId grp : ℕ) (f : EditFields) {i : ℕ}
    (n : ℕ) (hi : 1 ≤ i) :
    (materializedRows nextId grp f i n).Sorted entryKeyLE := by
  unfold materializedRows List.Sorted
  rw [List.pairwise_map]
  refine (List.pairwise_lt_range n).imp ?_
  intro a b hab
  unfold entryKeyLE mkSeriesEntry
  left
  simp only []
  have hmul : i * a < i * b := by
    have h2 : i * (a + 1) <= i * b := Nat.mul_le_mul (le_refl i) (by omega)
    have h3 : i * (a + 1) = i * a + i := by ring
    omega
  exact add_lt_add_left (by exact_mod_cast hmul) f.date

theorem materializedRows_ids (nextId grp : ℕ) (f : EditFields) (i n : ℕ) :
    ((materializedRows nextId grp f i n).map (fun e => e.id)).Nodup := by
  unfold materializedRows
  rw [List.map_map]
  have : ((fun e => ScheduleEntry.id e) ∘ fun k =>
      mkSeriesEntry (nextId + k) f grp i n (f.date + (i * k : ℕ)) (k + 1)) =
      (fun k => nextId + k) := by
    funext k
    rfl
  rw [this]
  exact (List.nodup_range n).map (fun a b h => by omega)

/-- Under a fresh series id, the members of the extended table are exactly
the created rows, already canonically ordered. -/
theorem members_of_materialized {store : List ScheduleEntry}
    {grp nextId i n : ℕ} {f : EditFields}
    (hfresh : ∀ e ∈ store, e.recurrence_group ≠ some grp) (hi : 1 ≤ i) :
    sortEntries ((store ++ materializedRows nextId grp f i n).filter
      (memberOf grp)) = materializedRows nextId grp f i n := by
  have hstore : store.filter (memberOf grp) = [] := by
    rw [List.filter_eq_nil_iff]
    intro e he
    unfold memberOf
    simpa using hfresh e he
  have hcreated : (materializedRows nextId grp f i n).filter (memberOf grp) =
      materializedRows nextId grp f i n := by
    rw [List.filter_eq_self]
    intro e he
    unfold materializedRows at he
    obtain ⟨k, _, rfl⟩ := List.mem_map.mp he
    simp [memberOf, mkSeriesEntry]
  rw [List.filter_append, hstore, hcreated, List.nil_append]
  exact List.Sorted.insertionSort_eq (materializedRows_sorted nextId grp f n hi)

/-- The recurring create fully evaluated: appending the created batch and
reindexing leaves the table at `store ++ created` (the created rows already
carry their final metadata). -/
theorem create_recurring_eq {store : List ScheduleEntry}
    {grp nextId i n : ℕ} {f : EditFields}
    (hfresh : ∀ e ∈ store, e.recurrence_group ≠ some grp) (hi : 1 ≤ i) :
    create_schedule_entry_recurring nextId grp f i n store =
      store ++ materializedRows nextId grp f i n := by
  unfold create_schedule_entry_recurring
  by_cases hn : n = 0
  · subst hn
    have : materializedRows nextId grp f i 0 = [] := by
      unfold materializedRows
      rfl
    rw [show (List.range 0).map (fun k =>
        mkSeriesEntry (nextId + k) f grp i 0 (f.date + (i * k : ℕ)) (k + 1)) =
        materializedRows nextId grp f i 0 from rfl]
    rw [this]
    unfold update_recurrence_metadata
    simp only []
    rw [if_pos]
    have hstore : store.filter (memberOf grp) = [] := by
      rw [List.filter_eq_nil_iff]
      intro e he
      unfold memberOf
      simpa using hfresh e he
    rw [List.append_nil, hstore]
    rfl
  · rw [show (List.range n).map (fun k =>
        mkSeriesEntry (nextId + k) f grp i n (f.date + (i * k : ℕ)) (k + 1)) =
        materializedRows nextId grp f i n from rfl]
    have hmem := @members_of_materialized store grp nextId i n f hfresh hi
    have hne : sortEntries ((store ++ materializedRows nextId grp f i n).filter
        (memberOf grp)) ≠ [] := by
      rw [hmem]
      intro hcon
      have := materializedRows_length nextId grp f i n
      rw [hcon] at this
      exact hn this.symm
    rw [update_recurrence_metadata_eq_map grp _ hne]
    rw [List.map_append]
    have hstorepart : store.map (reindexRowMap grp
        (sortEntries ((store ++ materializedRows nextId grp f i n).filter
          (memberOf grp)))) = store := by
      refine Eq.trans (List.map_congr_left ?_) (List.map_id store)
      intro e he
      unfold reindexRowMap
      rw [if_neg]
      · rfl
      · unfold memberOf
        simp [hfresh e he]
    have hcreatedpart : (materializedRows nextId grp f i n).map
        (reindexRowMap grp
          (sortEntries ((store ++ materializedRows nextId grp f i n).filter
            (memberOf grp)))) = materializedRows nextId grp f i n := by
      refine Eq.trans (List.map_congr_left ?_)
        (List.map_id (materializedRows nextId grp f i n))
      intro e he
      obtain ⟨k, hk, rfl⟩ : ∃ k, ∃ hk : k <
          (materializedRows nextId grp f i n).length,
          (materializedRows nextId grp f i n).get ⟨k, hk⟩ = e := by
        obtain ⟨k, hk, hke⟩ := List.getElem_of_mem he
        exact ⟨k, hk, by rw [List.get_eq_getElem]; exact hke⟩
      unfold reindexRowMap
      rw [hmem]
      rw [if_pos]
      · have hrank := reindexMember_at_rank
          (materializedRows_ids nextId grp f i n)
          (materializedRows nextId grp f i n).length hk
        rw [hrank]
        refine meta_update_self ?_ ?_
        · rw [materializedRows_get hk]
          rfl
        · rw [materializedRows_get hk, materializedRows_length]
          rfl
      · rw [materializedRows_get hk]
        simp [memberOf, mkSeriesEntry]
    rw [hstorepart, hcreatedpart]

/-! ## Deleting a single occurrence from its series -/

theorem countP_add_countP_not {α : Type} (p : α → Bool) (l : List α) :
    l.countP p + l.countP (fun a => !(p a)) = l.length := by
  induction l with
  | nil => rfl
  | cons x xs ih =>
    by_cases h : p x <;> simp [List.countP_cons, h] <;> omega

/-- Removing the unique row with a given id shortens the list by one. -/
theorem length_filter_ne_id {l : List ScheduleEntry}
    (hn : (l.map (fun e => e.id)).Nodup) {x : ScheduleEntry} (hx : x ∈ l) :
    (l.filter (fun e => !(e.id == x.id))).length + 1 = l.length := by
  have hcount : l.countP (fun e => e.id == x.id) = 1 := by
    have h1 : l.countP (fun e => e.id == x.id) =
        (l.map (fun e => e.id)).countP (fun b => b == x.id) := by
      rw [List.countP_map]
      rfl
    have h2 : (l.map (fun e => e.id)).countP (fun b => b == x.id) =
        (l.map (fun e => e.id)).count x.id := rfl
    rw [h1, h2]
    exact List.count_eq_one_of_mem hn (List.mem_map_of_mem _ hx)
  have hsplit := countP_add_countP_not (fun e => e.id == x.id) l
  rw [hcount] at hsplit
  rw [← List.countP_eq_length_filter]
  omega

/-- A reindex run preserves the number of rows. -/
theorem update_recurrence_metadata_length (g : Option ℕ)
    (store : List ScheduleEntry) :
    (update_recurrence_metadata g store).length = store.length := by
  have := ids_update_recurrence_metadata g store
  have h1 : ((update_recurrence_metadata g store).map
      (fun e => e.id)).length = (store.map (fun e => e.id)).length := by
    rw [this]
  simpa using h1

/-- The ids present after a reindex are the ids present before. -/
theorem mem_id_update_recurrence_metadata {g : Option ℕ}
    {store : List ScheduleEntry} {e : ScheduleEntry}
    (he : e ∈ update_recurrence_metadata g store) :
    ∃ x ∈ store, x.id = e.id := by
  have hmm : e.id ∈ (update_recurrence_metadata g store).map
      (fun x => x.id) := List.mem_map_of_mem _ he
  rw [ids_update_recurrence_metadata] at hmm
  obtain ⟨x, hx, hxe⟩ := List.mem_map.mp hmm
  exact ⟨x, hx, hxe⟩

/-- The sorted member list of the table with one row removed is the old
sorted member list with that row filtered out. -/
theorem sorted_members_after_erase {grp entryId : ℕ}
    {store : List ScheduleEntry} (hid : nodupIds store) :
    sortEntries (((store.filter (fun e => !(e.id == entryId))).filter
        (memberOf grp))) =
      (sortEntries (store.filter (memberOf grp))).filter
        (fun e => !(e.id == entryId)) := by
  refine sortEntries_eq_of_perm ?_ ?_ ?_
  · have h1 : (store.filter (fun e => !(e.id == entryId))).filter
        (memberOf grp) =
        (store.filter (memberOf grp)).filter (fun e => !(e.id == entryId)) := by
      rw [List.filter_filter, List.filter_filter]
      refine List.filter_congr ?_
      intro e _
      exact Bool.and_comm _ _
    rw [h1]
    exact List.Perm.filter _ ((sortEntries_perm _).symm)
  · exact List.Sorted.filter _ (sortEntries_sorted _)
  · refine List.Nodup.sublist (List.Sublist.map _ (List.filter_sublist _)) ?_
    exact nodup_ids_sortEntries (nodup_ids_filter _ hid)

/-- Pointwise description of the canonically ordered member list after a
reindex: position `k` holds the old `k`-th member with rank `k + 1` and the
member count written in. -/
theorem members_after_reindex_get? (grp : ℕ) {store : List ScheduleEntry}
    (hid : nodupIds store) (k : ℕ) :
    (sortEntries ((update_recurrence_metadata (some grp) store).filter
        (memberOf grp))).get? k =
      ((sortEntries (store.filter (memberOf grp))).get? k).map
        (fun e =>
          { e with
            recurrence_index := some (k + 1)
            recurrence_total_occurrences :=
              some (sortEntries (store.filter (memberOf grp))).length }) := by
  rw [sorted_members_after_reindex grp store]
  by_cases hk : k < (sortEntries (store.filter (memberOf grp))).length
  · rw [List.get?_eq_getElem?, List.getElem?_map,
      List.get?_eq_getElem?, List.getElem?_eq_getElem hk]
    have hnodup : ((sortEntries (store.filter (memberOf grp))).map
        (fun e => e.id)).Nodup :=
      nodup_ids_sortEntries (nodup_ids_filter _ hid)
    have hrank := reindexMember_at_rank hnodup
      (sortEntries (store.filter (memberOf grp))).length hk
    rw [List.get_eq_getElem] at hrank
    simp [hrank]
  · rw [List.get?_eq_getElem?, List.getElem?_eq_none (by simpa using hk),
      List.get?_eq_getElem?, List.getElem?_eq_none (by omega)]
    rfl

/-- **C4.** For every series of more than one member, deleting one occurrence
with scope=single removes exactly that one row; afterwards the remaining
members, in ascending `(date, start_time, id)` order, are the old members
minus the deleted one with `series_position` exactly `1..(n-1)` and
`total_occurrences = n - 1`, their dates and times (and all other fields)
unchanged. -/
theorem C4_delete_single_from_series (store : List ScheduleEntry)
    (entryId grp : ℕ) (entry0 : ScheduleEntry)
    (hid : nodupIds store)
    (hfind : lookupEntry entryId store = some entry0)
    (hgrp : entry0.recurrence_group = some grp)
    (hN : 2 ≤ (sortEntries (store.filter (memberOf grp))).length) :
    (delete_schedule_entry_single entryId store).length + 1 = store.length ∧
    (∀ e ∈ delete_schedule_entry_single entryId store, e.id ≠ entryId) ∧
    (sortEntries ((delete_schedule_entry_single entryId store).filter
        (memberOf grp))).length + 1 =
      (sortEntries (store.filter (memberOf grp))).length ∧
    ∀ k : ℕ,
      (sortEntries ((delete_schedule_entry_single entryId store).filter
          (memberOf grp))).get? k =
        (((sortEntries (store.filter (memberOf grp))).filter
            (fun e => !(e.id == entryId))).get? k).map
          (fun e =>
            { e with
              recurrence_index := some (k + 1)
              recurrence_total_occurrences :=
                some ((sortEntries (store.filter (memberOf grp))).length - 1) }) := by
  have hid0 : entry0.id = entryId := by
    have := List.find?_some hfind
    simpa using this
  have hmem0 : entry0 ∈ store := List.mem_of_find?_eq_some hfind
  have hdef : delete_schedule_entry_single entryId store =
      update_recurrence_metadata (some grp)
        (store.filter (fun e => !(e.id == entryId))) := by
    unfold delete_schedule_entry_single
    rw [hfind]
    simp only []
    rw [hgrp]
  have hidstore' : nodupIds (store.filter (fun e => !(e.id == entryId))) :=
    nodup_ids_filter _ hid
  have hremEq : sortEntries ((store.filter
      (fun e => !(e.id == entryId))).filter (memberOf grp)) =
      (sortEntries (store.filter (memberOf grp))).filter
        (fun e => !(e.id == entryId)) :=
    sorted_members_after_erase hid
  have hmem0es : entry0 ∈ sortEntries (store.filter (memberOf grp)) := by
    refine mem_sorted_members hmem0 ?_
    unfold memberOf
    simp [hgrp]
  have hesid : ((sortEntries (store.filter (memberOf grp))).map
      (fun e => e.id)).Nodup :=
    nodup_ids_sortEntries (nodup_ids_filter _ hid)
  have hremLen : ((sortEntries (store.filter (memberOf grp))).filter
      (fun e => !(e.id == entryId))).length + 1 =
      (sortEntries (store.filter (memberOf grp))).length := by
    have := length_filter_ne_id hesid hmem0es
    rw [hid0] at this
    exact this
  refine ⟨?_, ?_, ?_, ?_⟩
  · rw [hdef, update_recurrence_metadata_length]
    have := length_filter_ne_id hid hmem0
    rw [hid0] at this
    exact this
  · intro e he
    rw [hdef] at he
    obtain ⟨x, hx, hxe⟩ := mem_id_update_recurrence_metadata he
    have hpx := List.of_mem_filter hx
    simp only [Bool.not_eq_true', beq_eq_false_iff_ne, ne_eq] at hpx
    rw [← hxe]
    exact hpx
  · rw [hdef, sorted_members_after_reindex, List.length_map, hremEq]
    exact hremLen
  · intro k
    rw [hdef, members_after_reindex_get? grp hidstore' k]
    simp only [hremEq]
    have hlen' : ((sortEntries (store.filter (memberOf grp))).filter
        (fun e => !(e.id == entryId))).length =
        (sortEntries (store.filter (memberOf grp))).length - 1 := by
      omega
    simp only [hlen']

/-- Witness for C4: deleting the middle member of the concrete three-member
series `sampleStore` (ids 1, 2, 3, dates 10, 17, 24). -/
theorem C4_delete_single_from_series_witness :
    (delete_schedule_entry_single 2 sampleStore).length + 1 =
        sampleStore.length ∧
    (∀ e ∈ delete_schedule_entry_single 2 sampleStore, e.id ≠ 2) ∧
    (sortEntries ((delete_schedule_entry_single 2 sampleStore).filter
        (memberOf 5))).length + 1 =
      (sortEntries (sampleStore.filter (memberOf 5))).length ∧
    ∀ k : ℕ,
      (sortEntries ((delete_schedule_entry_single 2 sampleStore).filter
          (memberOf 5))).get? k =
        (((sortEntries (sampleStore.filter (memberOf 5))).filter
            (fun e => !(e.id == 2))).get? k).map
          (fun e =>
            { e with
              recurrence_index := some (k + 1)
              recurrence_total_occurrences :=
                some ((sortEntries (sampleStore.filter (memberOf 5))).length - 1) }) :=
  C4_delete_single_from_series sampleStore 2 5 (mkSample 2 17 540 600 2 3)
    (by decide) (by decide) (by decide) (by decide)

/-- **C6.** Reindex is idempotent: for every series id and every starting
table (with distinct primary keys), running `update_recurrence_metadata`
twice yields exactly the same rows as running it once, and the second run
saves no row. -/
theorem C6_reindex_idempotent (g : Option ℕ) (store : List ScheduleEntry)
    (hid : nodupIds store) :
    update_recurrence_metadata g (update_recurrence_metadata g store) =
      update_recurrence_metadata g store ∧
    reindexDirtyCount g (update_recurrence_metadata g store) = 0 :=
  ⟨update_recurrence_metadata_idem g store, reindexDirtyCount_after_update hid⟩

/-- Witness for C6: reindexing the concrete stale two-member series
`sampleStaleStore` twice equals reindexing it once, and the second run is
clean. -/
theorem C6_reindex_idempotent_witness :
    update_recurrence_metadata (some 5)
        (update_recurrence_metadata (some 5) sampleStaleStore) =
      update_recurrence_metadata (some 5) sampleStaleStore ∧
    reindexDirtyCount (some 5)
      (update_recurrence_metadata (some 5) sampleStaleStore) = 0 :=
  C6_reindex_idempotent (some 5) sampleStaleStore (by decide)

/-- **C3.** Detaching a whole series (edit with scope=series turning
recurrence off): with `d` the difference between the submitted date and the
edited occurrence's prior date, every member's date moves by exactly `d`
(hence relative spacing is preserved), every member uniformly receives the
other submitted fields, all four recurrence columns become null on every
member, non-members are untouched, and no row of the series id remains. -/
theorem C3_detach_series_shifts_all (store : List ScheduleEntry)
    (entryId grp : ℕ) (entry0 : ScheduleEntry) (f : EditFields)
    (hfind : lookupEntry entryId store = some entry0)
    (hgrp : entry0.recurrence_group = some grp) :
    (edit_schedule_entry_detach_series entryId f store).length =
      store.length ∧
    (∀ e ∈ store, e.recurrence_group = some grp →
      ∃ e' ∈ edit_schedule_entry_detach_series entryId f store,
        e'.id = e.id ∧
        e'.date = e.date + (f.date - entry0.date) ∧
        e'.teacher = f.teacher ∧ e'.classroom = f.classroom ∧
        e'.subject = f.subject ∧ e'.course = f.course ∧
        e'.group = f.group ∧
        e'.start_time = f.start_time ∧ e'.end_time = f.end_time ∧
        e'.recurrence_group = none ∧ e'.recurrence_interval_days = none ∧
        e'.recurrence_total_occurrences = none ∧
        e'.recurrence_index = none) ∧
    (∀ e ∈ store, e.recurrence_group ≠ some grp →
      e ∈ edit_schedule_entry_detach_series entryId f store) ∧
    (∀ e' ∈ edit_schedule_entry_detach_series entryId f store,
      e'.recurrence_group ≠ some grp) := by
  have hdef : edit_schedule_entry_detach_series entryId f store =
      store.map (fun e =>
        if memberOf grp e then
          { applyFields f e with
            date := e.date + (f.date - entry0.date)
            recurrence_group := none
            recurrence_interval_days := none
            recurrence_total_occurrences := none
            recurrence_index := none }
        else e) := by
    unfold edit_schedule_entry_detach_series
    rw [hfind]
    simp only []
    rw [hgrp]
  refine ⟨?_, ?_, ?_, ?_⟩
  · rw [hdef, List.length_map]
  · intro e he hm
    have hmb : memberOf grp e = true := by
      unfold memberOf
      simp [hm]
    refine ⟨_, by rw [hdef]; exact List.mem_map_of_mem _ he, ?_⟩
    rw [if_pos hmb]
    unfold applyFields
    refine ⟨rfl, rfl, rfl, rfl, rfl, rfl, rfl, rfl, rfl, rfl, rfl, rfl, rfl⟩
  · intro e he hm
    have hmb : memberOf grp e = false := by
      unfold memberOf
      simpa using hm
    have : (if memberOf grp e then
        { applyFields f e with
          date := e.date + (f.date - entry0.date)
          recurrence_group := none
          recurrence_interval_days := none
          recurrence_total_occurrences := none
          recurrence_index := none }
        else e) = e := by
      rw [if_neg (by simp [hmb])]
    rw [hdef, ← this]
    exact List.mem_map_of_mem _ he
  · intro e' he'
    rw [hdef] at he'
    obtain ⟨e, _, rfl⟩ := List.mem_map.mp he'
    by_cases hmb : memberOf grp e = true
    · rw [if_pos hmb]
      simp
    · rw [if_neg hmb]
      have : memberOf grp e = false := Bool.eq_false_iff.mpr hmb
      unfold memberOf at this
      simpa using this

/-- Witness for C3: detaching the concrete three-member series
`sampleStore` through its middle member with submitted date 100. -/
theorem C3_detach_series_shifts_all_witness :
    (edit_schedule_entry_detach_series 2 sampleFields sampleStore).length =
      sampleStore.length ∧
    (∀ e ∈ sampleStore, e.recurrence_group = some 5 →
      ∃ e' ∈ edit_schedule_entry_detach_series 2 sampleFields sampleStore,
        e'.id = e.id ∧
        e'.date = e.date + (sampleFields.date - (mkSample 2 17 540 600 2 3).date) ∧
        e'.teacher = sampleFields.teacher ∧
        e'.classroom = sampleFields.classroom ∧
        e'.subject = sampleFields.subject ∧
        e'.course = sampleFields.course ∧
        e'.group = sampleFields.group ∧
        e'.start_time = sampleFields.start_time ∧
        e'.end_time = sampleFields.end_time ∧
        e'.recurrence_group = none ∧ e'.recurrence_interval_days = none ∧
        e'.recurrence_total_occurrences = none ∧
        e'.recurrence_index = none) ∧
    (∀ e ∈ sampleStore, e.recurrence_group ≠ some 5 →
      e ∈ edit_schedule_entry_detach_series 2 sampleFields sampleStore) ∧
    (∀ e' ∈ edit_schedule_entry_detach_series 2 sampleFields sampleStore,
      e'.recurrence_group ≠ some 5) :=
  C3_detach_series_shifts_all sampleStore 2 5 (mkSample 2 17 540 600 2 3)
    sampleFields (by decide) (by decide)

/-- **C1.** Materialize: for every valid template, interval > 0 and
occurrence count n ≥ 2, the recurring create branch adds exactly `n` rows;
exactly `n` rows of the table carry the fresh series id, and in canonical
order the `k`-th of them (0-based) is dated `template.date + interval * k`
with `series_position = k + 1`, `interval_days` and `total_occurrences = n`
set, and the fresh `series_id` — i.e. it is exactly the row the create loop
builds. -/
theorem C1_materialize_series (store : List ScheduleEntry)
    (nextId grp i n : ℕ) (f : EditFields)
    (hfresh : ∀ e ∈ store, e.recurrence_group ≠ some grp)
    (hi : 1 ≤ i) (hn : 2 ≤ n) :
    (create_schedule_entry_recurring nextId grp f i n store).length =
      store.length + n ∧
    ((create_schedule_entry_recurring nextId grp f i n store).filter
      (memberOf grp)).length = n ∧
    ∀ k : ℕ, k < n →
      (sortEntries ((create_schedule_entry_recurring nextId grp f i n
          store).filter (memberOf grp))).get? k =
        some (mkSeriesEntry (nextId + k) f grp i n (f.date + (i * k : ℕ))
          (k + 1)) := by
  rw [create_recurring_eq hfresh hi]
  have hstore : store.filter (memberOf grp) = [] := by
    rw [List.filter_eq_nil_iff]
    intro e he
    unfold memberOf
    simpa using hfresh e he
  have hcreated : (materializedRows nextId grp f i n).filter (memberOf grp) =
      materializedRows nextId grp f i n := by
    rw [List.filter_eq_self]
    intro e he
    unfold materializedRows at he
    obtain ⟨k, _, rfl⟩ := List.mem_map.mp he
    simp [memberOf, mkSeriesEntry]
  refine ⟨?_, ?_, ?_⟩
  · rw [List.length_append, materializedRows_length]
  · rw [List.filter_append, hstore, hcreated, List.nil_append,
      materializedRows_length]
  · intro k hk
    have hmem := @members_of_materialized store grp nextId i n f hfresh hi
    rw [hmem]
    have hk' : k < (materializedRows nextId grp f i n).length := by
      rw [materializedRows_length]
      exact hk
    rw [List.get?_eq_getElem?, List.getElem?_eq_getElem hk']
    have := materializedRows_get hk'
    rw [List.get_eq_getElem] at this
    rw [this]

/-- Witness for C1: materializing a weekly three-occurrence series into an
empty table (the spec's scenario: interval 7, three occurrences, dates
`f.date + 0, 7, 14`). -/
theorem C1_materialize_series_witness :
    (create_schedule_entry_recurring 1 5 sampleFields 7 3
        ([] : List ScheduleEntry)).length =
      ([] : List ScheduleEntry).length + 3 ∧
    ((create_schedule_entry_recurring 1 5 sampleFields 7 3
        ([] : List ScheduleEntry)).filter (memberOf 5)).length = 3 ∧
    ∀ k : ℕ, k < 3 →
      (sortEntries ((create_schedule_entry_recurring 1 5 sampleFields 7 3
          ([] : List ScheduleEntry)).filter (memberOf 5))).get? k =
        some (mkSeriesEntry (1 + k) sampleFields 5 7 3
          (sampleFields.date + (7 * k : ℕ)) (k + 1)) :=
  C1_materialize_series ([] : List ScheduleEntry) 1 5 7 3 sampleFields
    (by decide) (by decide) (by decide)

/-- **C7.** `get_status` (a pure function of the entry and the reference
clock — side effects cannot arise in this embedding) returns exactly one of
the three labels: upcoming iff the occurrence date is later than the
reference date or same-day with a later start time; finished iff the date is
earlier or same-day with an earlier end time; active in every remaining
case.  In particular a reference clock exactly at the start or the end time
on the occurrence's date is active.  (The hypothesis is the data-model
invariant `start_time < end_time`.) -/
theorem C7_status_classifier (e : ScheduleEntry) (rd : ℤ) (rt : ℕ)
    (hse : e.start_time < e.end_time) :
    (get_status e rd rt = "upcoming" ∨ get_status e rd rt = "finished" ∨
      get_status e rd rt = "active") ∧
    (get_status e rd rt = "upcoming" ↔
      (e.date > rd ∨ (e.date = rd ∧ e.start_time > rt))) ∧
    (get_status e rd rt = "finished" ↔
      (e.date < rd ∨ (e.date = rd ∧ e.end_time < rt))) ∧
    (get_status e rd rt = "active" ↔
      (¬(e.date > rd ∨ (e.date = rd ∧ e.start_time > rt)) ∧
        ¬(e.date < rd ∨ (e.date = rd ∧ e.end_time < rt)))) ∧
    get_status e e.date e.start_time = "active" ∧
    get_status e e.date e.end_time = "active" := by
  have hb1 : get_status e e.date e.start_time = "active" := by
    unfold get_status
    rw [if_neg (by omega), if_neg (by omega)]
  have hb2 : get_status e e.date e.end_time = "active" := by
    unfold get_status
    rw [if_neg (by omega), if_neg (by omega)]
  have hmain : (get_status e rd rt = "upcoming" ∨
      get_status e rd rt = "finished" ∨ get_status e rd rt = "active") ∧
      (get_status e rd rt = "upcoming" ↔
        (e.date > rd ∨ (e.date = rd ∧ e.start_time > rt))) ∧
      (get_status e rd rt = "finished" ↔
        (e.date < rd ∨ (e.date = rd ∧ e.end_time < rt))) ∧
      (get_status e rd rt = "active" ↔
        (¬(e.date > rd ∨ (e.date = rd ∧ e.start_time > rt)) ∧
          ¬(e.date < rd ∨ (e.date = rd ∧ e.end_time < rt)))) := by
    unfold get_status
    split_ifs with h1 h2
    · exact ⟨Or.inl rfl, ⟨fun _ => h1, fun _ => rfl⟩,
        ⟨fun hc => absurd hc (by decide), fun hc => (by omega : False).elim⟩,
        ⟨fun hc => absurd hc (by decide), fun hc => (hc.1 h1).elim⟩⟩
    · exact ⟨Or.inr (Or.inl rfl), ⟨fun hc => absurd hc (by decide),
        fun hc => (h1 hc).elim⟩, ⟨fun _ => h2, fun _ => rfl⟩,
        ⟨fun hc => absurd hc (by decide), fun hc => (hc.2 h2).elim⟩⟩
    · exact ⟨Or.inr (Or.inr rfl), ⟨fun hc => absurd hc (by decide),
        fun hc => (h1 hc).elim⟩, ⟨fun hc => absurd hc (by decide),
        fun hc => (h2 hc).elim⟩, ⟨fun _ => ⟨h1, h2⟩, fun _ => rfl⟩⟩
  exact ⟨hmain.1, hmain.2.1, hmain.2.2.1, hmain.2.2.2, hb1, hb2⟩

/-- Witness for C7: the classifier instantiated on a concrete occurrence
(day 10, 540–600) with reference clock (10, 550), which is active. -/
theorem C7_status_classifier_witness :
    (get_status (mkSample 1 10 540 600 1 3) 10 550 = "upcoming" ∨
      get_status (mkSample 1 10 540 600 1 3) 10 550 = "finished" ∨
      get_status (mkSample 1 10 540 600 1 3) 10 550 = "active") ∧
    (get_status (mkSample 1 10 540 600 1 3) 10 550 = "upcoming" ↔
      ((mkSample 1 10 540 600 1 3).date > 10 ∨
        ((mkSample 1 10 540 600 1 3).date = 10 ∧
          (mkSample 1 10 540 600 1 3).start_time > 550))) ∧
    (get_status (mkSample 1 10 540 600 1 3) 10 550 = "finished" ↔
      ((mkSample 1 10 540 600 1 3).date < 10 ∨
        ((mkSample 1 10 540 600 1 3).date = 10 ∧
          (mkSample 1 10 540 600 1 3).end_time < 550))) ∧
    (get_status (mkSample 1 10 540 600 1 3) 10 550 = "active" ↔
      (¬((mkSample 1 10 540 600 1 3).date > 10 ∨
          ((mkSample 1 10 540 600 1 3).date = 10 ∧
            (mkSample 1 10 540 600 1 3).start_time > 550)) ∧
        ¬((mkSample 1 10 540 600 1 3).date < 10 ∨
          ((mkSample 1 10 540 600 1 3).date = 10 ∧
            (mkSample 1 10 540 600 1 3).end_time < 550)))) ∧
    get_status (mkSample 1 10 540 600 1 3)
      (mkSample 1 10 540 600 1 3).date
      (mkSample 1 10 540 600 1 3).start_time = "active" ∧
    get_status (mkSample 1 10 540 600 1 3)
      (mkSample 1 10 540 600 1 3).date
      (mkSample 1 10 540 600 1 3).end_time = "active" :=
  C7_status_classifier (mkSample 1 10 540 600 1 3) 10 550 (by decide)

/-! ## CSV date and time field round-trips -/

theorem digitVal_digitChar {k : ℕ} (hk : k ≤ 9) :
    digitVal (digitChar k) = some k := by
  interval_cases k <;> decide

theorem monthLength_le (y m : ℕ) : monthLength y m ≤ 31 := by
  unfold monthLength
  split_ifs <;> omega

theorem monthLength_pos (y m : ℕ) : 1 ≤ monthLength y m := by
  unfold monthLength
  split_ifs <;> omega

theorem strftime_HM_chars (t : PyTime) :
    strftime_HM t = [digitChar (t.hour / 10), digitChar (t.hour % 10), ':',
      digitChar (t.minute / 10), digitChar (t.minute % 10)] := rfl

theorem strftime_Ymd_chars (d : PyDate) :
    strftime_Ymd d = [digitChar (d.year / 1000), digitChar (d.year / 100 % 10),
      digitChar (d.year / 10 % 10), digitChar (d.year % 10), '-',
      digitChar (d.month / 10), digitChar (d.month % 10), '-',
      digitChar (d.day / 10), digitChar (d.day % 10)] := rfl

/-- Parsing the `%H:%M` rendering of a valid time reconstructs the hour and
minute and sets seconds and microseconds to zero. -/
theorem strptime_strftime_HM (t : PyTime) (ht : validTime t) :
    strptime_HM (strftime_HM t) = some ⟨t.hour, t.minute, 0, 0⟩ := by
  obtain ⟨hh, hm, _, _⟩ := ht
  rw [strftime_HM_chars]
  unfold strptime_HM
  simp only []
  rw [if_pos trivial]
  rw [digitVal_digitChar (by omega), digitVal_digitChar (by omega),
    digitVal_digitChar (by omega), digitVal_digitChar (by omega)]
  simp only []
  rw [if_pos (by omega)]
  have h1 : 10 * (t.hour / 10) + t.hour % 10 = t.hour := by omega
  have h2 : 10 * (t.minute / 10) + t.minute % 10 = t.minute := by omega
  rw [h1, h2]

/-- Parsing the `%Y-%m-%d` rendering of a valid date reconstructs the date
exactly. -/
theorem strptime_strftime_Ymd (d : PyDate) (hd : validDate d) :
    strptime_Ymd (strftime_Ymd d) = some d := by
  obtain ⟨hy1, hy2, hm1, hm2, hd1, hd2⟩ := hd
  rw [strftime_Ymd_chars]
  unfold strptime_Ymd
  simp only []
  rw [if_pos (by exact ⟨trivial, trivial⟩)]
  have hml := monthLength_le d.year d.month
  rw [digitVal_digitChar (by omega), digitVal_digitChar (by omega),
    digitVal_digitChar (by omega), digitVal_digitChar (by omega),
    digitVal_digitChar (by omega), digitVal_digitChar (by omega),
    digitVal_digitChar (by omega), digitVal_digitChar (by omega)]
  simp only []
  have hyv : 1000 * (d.year / 1000) + 100 * (d.year / 100 % 10) +
      10 * (d.year / 10 % 10) + d.year % 10 = d.year := by omega
  have hmv : 10 * (d.month / 10) + d.month % 10 = d.month := by omega
  have hdv : 10 * (d.day / 10) + d.day % 10 = d.day := by omega
  rw [hyv, hmv, hdv]
  rw [if_pos (by exact ⟨by omega, by omega, by omega, by omega, hd2⟩)]

/-- **C9 (counterexample to the claim as stated).** A storable occurrence
time carrying nonzero seconds (09:00:30) does not survive the CSV round
trip: the export formats it with `%H:%M`, and re-parsing yields 09:00:00. -/
theorem C9_csv_roundtrip_counterexample :
    validTime ⟨9, 0, 30, 0⟩ ∧
    strptime_HM (strftime_HM ⟨9, 0, 30, 0⟩) ≠ some ⟨9, 0, 30, 0⟩ := by
  decide

/-- **C9 (amended).** The CSV Date field round-trips bit-for-bit for every
storable date; the Start/End Time fields parse back to the stored hour and
minute with seconds and microseconds zeroed, so a stored time round-trips
bit-for-bit exactly when its seconds and microseconds are zero (which holds
for every time accepted by the application's own `%H:%M` form parsers). -/
theorem C9_csv_roundtrip_amended (d : PyDate) (t : PyTime)
    (hd : validDate d) (ht : validTime t) :
    strptime_Ymd (strftime_Ymd d) = some d ∧
    strptime_HM (strftime_HM t) = some ⟨t.hour, t.minute, 0, 0⟩ ∧
    (strptime_HM (strftime_HM t) = some t ↔
      (t.second = 0 ∧ t.microsecond = 0)) := by
  refine ⟨strptime_strftime_Ymd d hd, strptime_strftime_HM t ht, ?_, ?_⟩
  · intro hrt
    rw [strptime_strftime_HM t ht] at hrt
    have := Option.some.inj hrt
    cases t
    cases this
    exact ⟨rfl, rfl⟩
  · rintro ⟨hs, hus⟩
    rw [strptime_strftime_HM t ht]
    cases t
    simp only [] at hs hus
    rw [hs, hus]

/-- Witness for the amended C9 on the concrete date 2024-01-15 and time
09:00:00. -/
theorem C9_csv_roundtrip_amended_witness :
    strptime_Ymd (strftime_Ymd ⟨2024, 1, 15⟩) = some ⟨2024, 1, 15⟩ ∧
    strptime_HM (strftime_HM ⟨9, 0, 0, 0⟩) =
      some ⟨(⟨9, 0, 0, 0⟩ : PyTime).hour, (⟨9, 0, 0, 0⟩ : PyTime).minute,
        0, 0⟩ ∧
    (strptime_HM (strftime_HM ⟨9, 0, 0, 0⟩) = some ⟨9, 0, 0, 0⟩ ↔
      ((⟨9, 0, 0, 0⟩ : PyTime).second = 0 ∧
        (⟨9, 0, 0, 0⟩ : PyTime).microsecond = 0)) :=
  C9_csv_roundtrip_amended ⟨2024, 1, 15⟩ ⟨9, 0, 0, 0⟩ (by decide) (by decide)

/-! ## Calendar window lemmas -/

theorem count_week (p d : ℤ) (n : ℕ) :
    ((List.range n).map (fun k => p + (k : ℕ))).count d =
      if p ≤ d ∧ d < p + (n : ℕ) then 1 else 0 := by
  induction n with
  | zero =>
    simp only [List.range_zero, List.map_nil, List.count_nil]
    rw [if_neg (by push_cast; omega)]
  | succ k ih =>
    rw [List.range_succ, List.map_append, List.count_append, ih]
    simp only [List.map_cons, List.map_nil, List.count_cons, List.count_nil,
      beq_iff_eq]
    push_cast
    split_ifs <;> omega

theorem buildWeeksAux_nil {ce pointer : ℤ} (h : ¬pointer ≤ ce)
    (fuel : ℕ) : buildWeeksAux ce fuel pointer = [] := by
  cases fuel with
  | zero => rfl
  | succ f =>
    unfold buildWeeksAux
    rw [if_neg h]

/-- Every date of the display window appears in exactly one day cell of the
week loop's output, and no other date appears. -/
theorem buildWeeksAux_count (ce : ℤ) (fuel : ℕ) (pointer : ℤ)
    (hmod : (ce + 1 - pointer) % 7 = 0)
    (hfuel : ce + 1 - pointer ≤ 7 * fuel) (d : ℤ) :
    (buildWeeksAux ce fuel pointer).flatten.count d =
      if pointer ≤ d ∧ d ≤ ce then 1 else 0 := by
  induction fuel generalizing pointer with
  | zero =>
    rw [buildWeeksAux_nil (by omega) 0]
    simp only [List.flatten_nil, List.count_nil]
    rw [if_neg (by omega)]
  | succ f ih =>
    unfold buildWeeksAux
    by_cases hp : pointer ≤ ce
    · rw [if_pos hp, List.flatten_cons, List.count_append, count_week,
        ih (pointer + 7) (by omega) (by omega)]
      have h7 : pointer + 6 ≤ ce := by omega
      push_cast
      split_ifs <;> omega
    · rw [if_neg hp]
      simp only [List.flatten_nil, List.count_nil]
      rw [if_neg (by omega)]

theorem buildWeeksAux_week_length (ce : ℤ) (fuel : ℕ) (pointer : ℤ) :
    ∀ w ∈ buildWeeksAux ce fuel pointer, w.length = 7 := by
  induction fuel generalizing pointer with
  | zero =>
    intro w hw
    cases hw
  | succ f ih =>
    intro w hw
    unfold buildWeeksAux at hw
    by_cases hp : pointer ≤ ce
    · rw [if_pos hp] at hw
      rcases List.mem_cons.mp hw with rfl | hw
      · rw [List.length_map, List.length_range]
      · exact ih (pointer + 7) w hw
    · rw [if_neg hp] at hw
      cases hw

theorem buildWeeksAux_head (ce : ℤ) (f : ℕ) (pointer : ℤ)
    (hp : pointer ≤ ce) :
    (buildWeeksAux ce (f + 1) pointer).flatten.head? = some pointer := by
  unfold buildWeeksAux
  rw [if_pos hp, List.flatten_cons, List.head?_append]
  have hweek : ((List.range 7).map (fun k => pointer + (k : ℕ))).head? =
      some pointer := by
    rw [show List.range 7 = [0, 1, 2, 3, 4, 5, 6] from rfl]
    simp
  rw [hweek]
  rfl

theorem buildWeeksAux_getLast (ce : ℤ) (fuel : ℕ) (pointer : ℤ)
    (hmod : (ce + 1 - pointer) % 7 = 0)
    (hfuel : ce + 1 - pointer ≤ 7 * fuel) (hp : pointer ≤ ce) :
    (buildWeeksAux ce fuel pointer).flatten.getLast? = some ce := by
  induction fuel generalizing pointer with
  | zero => omega
  | succ f ih =>
    unfold buildWeeksAux
    rw [if_pos hp, List.flatten_cons, List.getLast?_append]
    by_cases hnext : pointer + 7 ≤ ce
    · rw [ih (pointer + 7) (by omega) (by omega) hnext]
      rfl
    · have hce : ce = pointer + 6 := by omega
      rw [buildWeeksAux_nil (by omega) f]
      have hweek : ((List.range 7).map
          (fun k => pointer + (k : ℕ))).getLast? = some (pointer + 6) := by
        rw [show List.range 7 = [0, 1, 2, 3, 4, 5, 6] from rfl]
        simp
      simp only [List.flatten_nil, List.getLast?_nil, Option.or, hweek]
      rw [hce]

theorem calendarWindow_mod (y m : ℕ) :
    (calendarWindowEnd y m + 1 - calendarWindowStart y m) % 7 = 0 := by
  unfold calendarWindowEnd calendarWindowStart monthEndOrdinal pyWeekday
  omega

theorem calendarWindow_spans (y m : ℕ) :
    calendarWindowStart y m ≤ (toOrdinal y m 1 : ℤ) ∧
    (toOrdinal y m 1 : ℤ) - calendarWindowStart y m < 7 ∧
    pyWeekday (calendarWindowStart y m) = 0 ∧
    monthEndOrdinal y m ≤ calendarWindowEnd y m ∧
    calendarWindowEnd y m - monthEndOrdinal y m < 7 ∧
    pyWeekday (calendarWindowEnd y m) = 6 := by
  unfold calendarWindowEnd calendarWindowStart monthEndOrdinal pyWeekday
  refine ⟨by omega, by omega, by omega, by omega, by omega, by omega⟩

theorem calendarWindow_le (y m : ℕ) :
    calendarWindowStart y m ≤ calendarWindowEnd y m := by
  have h1 := calendarWindow_spans y m
  have h2 := monthLength_pos y m
  unfold calendarWindowEnd calendarWindowStart monthEndOrdinal pyWeekday
  unfold calendarWindowEnd calendarWindowStart monthEndOrdinal pyWeekday at h1
  omega

/-- **C8.** For every valid (year, month) the rendered grid consists of
whole weeks (seven day cells each); its first day-cell date is the most
recent Monday on or before the 1st of the month (a Monday, at most six days
before the 1st), its last day-cell date is the next Sunday on or after the
last day of the month (a Sunday, at most six days after), and every date
from the month start to the month end appears in exactly one day cell. -/
theorem C8_build_window (y m : ℕ) (hy : 1 ≤ y) (hm1 : 1 ≤ m) (hm2 : m ≤ 12) :
    (∀ w ∈ calendarWeeks y m, w.length = 7) ∧
    (calendarWeeks y m).flatten.head? = some (calendarWindowStart y m) ∧
    pyWeekday (calendarWindowStart y m) = 0 ∧
    calendarWindowStart y m ≤ (toOrdinal y m 1 : ℤ) ∧
    (toOrdinal y m 1 : ℤ) - calendarWindowStart y m < 7 ∧
    (calendarWeeks y m).flatten.getLast? = some (calendarWindowEnd y m) ∧
    pyWeekday (calendarWindowEnd y m) = 6 ∧
    monthEndOrdinal y m ≤ calendarWindowEnd y m ∧
    calendarWindowEnd y m - monthEndOrdinal y m < 7 ∧
    ∀ d : ℤ, (toOrdinal y m 1 : ℤ) ≤ d → d ≤ monthEndOrdinal y m →
      (calendarWeeks y m).flatten.count d = 1 := by
  have hspans := calendarWindow_spans y m
  have hle := calendarWindow_le y m
  have hmod := calendarWindow_mod y m
  have hcw : calendarWeeks y m =
      buildWeeksAux (calendarWindowEnd y m)
        ((calendarWindowEnd y m + 7 - calendarWindowStart y m).toNat)
        (calendarWindowStart y m) := rfl
  have hfuel : calendarWindowEnd y m + 1 - calendarWindowStart y m ≤
      7 * ((calendarWindowEnd y m + 7 - calendarWindowStart y m).toNat) := by
    omega
  obtain ⟨f, hf⟩ : ∃ f,
      (calendarWindowEnd y m + 7 - calendarWindowStart y m).toNat = f + 1 :=
    ⟨(calendarWindowEnd y m + 7 - calendarWindowStart y m).toNat - 1,
      by omega⟩
  refine ⟨?_, ?_, hspans.2.2.1, hspans.1, hspans.2.1, ?_, hspans.2.2.2.2.2,
    hspans.2.2.2.1, hspans.2.2.2.2.1, ?_⟩
  · rw [hcw]
    exact buildWeeksAux_week_length _ _ _
  · rw [hcw, hf]
    exact buildWeeksAux_head _ _ _ hle
  · rw [hcw]
    exact buildWeeksAux_getLast _ _ _ hmod hfuel hle
  · intro d hd1 hd2
    rw [hcw, buildWeeksAux_count _ _ _ hmod hfuel d, if_pos (by omega)]

/-- Witness for C8 at the concrete month January 2024. -/
theorem C8_build_window_witness :
    (∀ w ∈ calendarWeeks 2024 1, w.length = 7) ∧
    (calendarWeeks 2024 1).flatten.head? =
      some (calendarWindowStart 2024 1) ∧
    pyWeekday (calendarWindowStart 2024 1) = 0 ∧
    calendarWindowStart 2024 1 ≤ (toOrdinal 2024 1 1 : ℤ) ∧
    (toOrdinal 2024 1 1 : ℤ) - calendarWindowStart 2024 1 < 7 ∧
    (calendarWeeks 2024 1).flatten.getLast? =
      some (calendarWindowEnd 2024 1) ∧
    pyWeekday (calendarWindowEnd 2024 1) = 6 ∧
    monthEndOrdinal 2024 1 ≤ calendarWindowEnd 2024 1 ∧
    calendarWindowEnd 2024 1 - monthEndOrdinal 2024 1 < 7 ∧
    ∀ d : ℤ, (toOrdinal 2024 1 1 : ℤ) ≤ d → d ≤ monthEndOrdinal 2024 1 →
      (calendarWeeks 2024 1).flatten.count d = 1 :=
  C8_build_window 2024 1 (by decide) (by decide) (by decide)

/-! ## Change-detection token lemmas -/

theorem seriesSize_perm {s1 s2 : List ScheduleEntry} (hperm : s1.Perm s2)
    (e : ScheduleEntry) : seriesSize s1 e = seriesSize s2 e := by
  unfold seriesSize
  cases e.recurrence_group with
  | none => rfl
  | some g => exact (hperm.filter _).length_eq

theorem visibleEntries_perm_eq (flt : SchedFilters) (y m : ℕ) (today : ℤ)
    (now : ℕ) {s1 s2 : List ScheduleEntry} (hperm : s1.Perm s2)
    (hid : nodupIds s2) :
    visibleEntries flt y m today now s1 = visibleEntries flt y m today now s2 := by
  unfold visibleEntries
  refine sortEntries_eq_of_perm
    ((hperm.filter _).trans (sortEntries_perm _).symm)
    (sortEntries_sorted _)
    (nodup_ids_sortEntries (nodup_ids_filter _ hid))

/-- **C10.** The change-detection token is a deterministic function of the
stored occurrences (irrespective of the order in which the database returns
the rows), the filters, the month and year, the weekend-independent window,
and the reference clock; `scheduler_updates` answers `changed = false`
exactly when the client token equals the freshly computed token; and a
display window containing no matching occurrence always yields the literal
token `"0"`. -/
theorem C10_token_deterministic (h : String → String) (R : NameResolver)
    (flt : SchedFilters) (y m : ℕ) (today : ℤ) (now : ℕ)
    (s1 s2 : List ScheduleEntry) (hperm : s1.Perm s2) (hid : nodupIds s2) :
    calendar_state_token h R flt y m today now s1 =
      calendar_state_token h R flt y m today now s2 ∧
    (∀ clientToken : Option String,
      scheduler_updates_changed h R flt y m today now s2 clientToken =
          false ↔
        clientToken = some (calendar_state_token h R flt y m today now s2)) ∧
    (s2.filter (fun e =>
        matchesFilters flt today now e &&
        decide (calendarWindowStart y m ≤ e.date) &&
        decide (e.date ≤ calendarWindowEnd y m)) = [] →
      calendar_state_token h R flt y m today now s2 = "0") := by
  refine ⟨?_, ?_, ?_⟩
  · unfold calendar_state_token
    rw [visibleEntries_perm_eq flt y m today now hperm hid]
    have hbasis : (visibleEntries flt y m today now s2).map
        (entryStateBasis R s1 today now) =
        (visibleEntries flt y m today now s2).map
          (entryStateBasis R s2 today now) := by
      refine List.map_congr_left ?_
      intro e _
      unfold entryStateBasis
      rw [seriesSize_perm hperm]
    rw [hbasis]
  · intro clientToken
    unfold scheduler_updates_changed
    constructor
    · intro hfalse
      have : (clientToken == some (calendar_state_token h R flt y m today
          now s2)) = true := by
        rcases hb : (clientToken == some (calendar_state_token h R flt y m
            today now s2)) with _ | _
        · rw [hb] at hfalse
          simp at hfalse
        · rfl
      exact eq_of_beq this
    · intro heq
      rw [heq]
      simp
  · intro hempt
    unfold calendar_state_token visibleEntries
    rw [hempt]
    rfl

/-- Witness for C10: the token over the concrete store `sampleStore` equals
the token over the same rows returned in reverse order, with the identity
function standing in for the SHA-256 hex digest. -/
theorem C10_token_deterministic_witness :
    calendar_state_token (fun s => s) sampleResolver sampleFilters 2024 1
        17 550 (sampleStore.reverse) =
      calendar_state_token (fun s => s) sampleResolver sampleFilters 2024 1
        17 550 sampleStore ∧
    (∀ clientToken : Option String,
      scheduler_updates_changed (fun s => s) sampleResolver sampleFilters
          2024 1 17 550 sampleStore clientToken = false ↔
        clientToken = some (calendar_state_token (fun s => s) sampleResolver
          sampleFilters 2024 1 17 550 sampleStore)) ∧
    (sampleStore.filter (fun e =>
        matchesFilters sampleFilters 17 550 e &&
        decide (calendarWindowStart 2024 1 ≤ e.date) &&
        decide (e.date ≤ calendarWindowEnd 2024 1)) = [] →
      calendar_state_token (fun s => s) sampleResolver sampleFilters 2024 1
        17 550 sampleStore = "0") :=
  C10_token_deterministic (fun s => s) sampleResolver sampleFilters 2024 1
    17 550 (sampleStore.reverse) sampleStore (by decide) (by decide)

/-! ## Series resize: canonical member list in index order -/

theorem entryIdxKeyLE_antisymm_id {a b : ScheduleEntry}
    (h1 : entryIdxKeyLE a b) (h2 : entryIdxKeyLE b a) : a.id = b.id := by
  unfold entryIdxKeyLE at h1 h2
  rcases h1 with h1 | ⟨he1, hk1⟩
  · rcases h2 with h2 | ⟨he2, _⟩
    · omega
    · omega
  · rcases h2 with h2 | ⟨_, hk2⟩
    · omega
    · exact entryKeyLE_antisymm_id hk1 hk2

theorem sortEntriesIdx_eq_of_perm {l l' : List ScheduleEntry}
    (hp : l.Perm l') (hs : l'.Sorted entryIdxKeyLE)
    (hid : (l'.map (fun e => e.id)).Nodup) : sortEntriesIdx l = l' := by
  refine sorted_perm_eq_of_antisymmOn ?_
    ((List.perm_insertionSort entryIdxKeyLE l).trans hp)
    (List.sorted_insertionSort entryIdxKeyLE l) hs
  intro a ha b hb hab hba
  exact entry_id_inj hid a ha b hb (entryIdxKeyLE_antisymm_id hab hba)

theorem idxKey_setMeta (e : ScheduleEntry) (v : ℕ) (t : Option ℕ) :
    idxKey
      { e with
        recurrence_index := some v
        recurrence_total_occurrences := t } = (v : ℤ) := rfl

theorem ids_map_reindexMember (es t2 : List ScheduleEntry) (t : ℕ)
    (h : es = t2) :
    (es.map (reindexMember t2 t)).map (fun e => e.id) =
      es.map (fun e => e.id) := by
  rw [List.map_map]
  refine List.map_congr_left ?_
  intro e _
  exact reindexMember_id t2 t e

/-- The rank-assigned member list is strictly increasing in
`recurrence_index`, hence already in `order_by("recurrence_index", ...)`
order. -/
theorem assigned_sorted_idx {es : List ScheduleEntry}
    (hid : (es.map (fun e => e.id)).Nodup) :
    (es.map (reindexMember es es.length)).Sorted entryIdxKeyLE := by
  rw [List.Sorted, List.pairwise_iff_get]
  intro a b hab
  have hla : (a : ℕ) < es.length := by
    have := a.isLt
    simpa using this
  have hlb : (b : ℕ) < es.length := by
    have := b.isLt
    simpa using this
  have hga : (es.map (reindexMember es es.length)).get a =
      reindexMember es es.length (es.get ⟨a, hla⟩) := by
    rw [List.get_eq_getElem, List.getElem_map]
    rfl
  have hgb : (es.map (reindexMember es es.length)).get b =
      reindexMember es es.length (es.get ⟨b, hlb⟩) := by
    rw [List.get_eq_getElem, List.getElem_map]
    rfl
  rw [hga, hgb, reindexMember_at_rank hid _ hla, reindexMember_at_rank hid _ hlb]
  left
  simp only [idxKey]
  have : (a : ℕ) < (b : ℕ) := hab
  omega

/-- After the leading reindex, ordering the members by
`("recurrence_index", "date", "start_time", "id")` gives exactly the
rank-assigned canonical list. -/
theorem sortIdx_members_after_reindex (grp : ℕ)
    {store : List ScheduleEntry} (hid : nodupIds store) :
    sortEntriesIdx ((update_recurrence_metadata (some grp) store).filter
        (memberOf grp)) =
      (sortEntries (store.filter (memberOf grp))).map
        (reindexMember (sortEntries (store.filter (memberOf grp)))
          (sortEntries (store.filter (memberOf grp))).length) := by
  have hesid : ((sortEntries (store.filter (memberOf grp))).map
      (fun e => e.id)).Nodup :=
    nodup_ids_sortEntries (nodup_ids_filter _ hid)
  refine sortEntriesIdx_eq_of_perm ?_ (assigned_sorted_idx hesid) ?_
  · rw [filter_update_recurrence_metadata_self]
    exact List.Perm.map _ ((sortEntries_perm _).symm)
  · rw [ids_map_reindexMember _ _ _ rfl]
    exact hesid

/-! ## Series resize: row-map bookkeeping -/

theorem resizeUpd_id (f : EditFields) (i n : ℕ) (newStart : ℤ) (k : ℕ)
    (e : ScheduleEntry) : (resizeUpd f i n newStart k e).id = e.id := rfl

theorem resizeUpd_recurrence_group (f : EditFields) (i n : ℕ)
    (newStart : ℤ) (k : ℕ) (e : ScheduleEntry) :
    (resizeUpd f i n newStart k e).recurrence_group =
      e.recurrence_group := rfl

theorem resizeRowMap_id (f : EditFields) (i n : ℕ) (newStart : ℤ)
    (ses : List ScheduleEntry) (e : ScheduleEntry) :
    (resizeRowMap f i n newStart ses e).id = e.id := by
  unfold resizeRowMap
  cases ses.findIdx? (fun x => x.id == e.id) with
  | none => rfl
  | some k =>
    by_cases hk : k < n
    · simp only [hk, if_true]
      rfl
    · simp only [hk, if_false]

theorem resizeRowMap_recurrence_group (f : EditFields) (i n : ℕ)
    (newStart : ℤ) (ses : List ScheduleEntry) (e : ScheduleEntry) :
    (resizeRowMap f i n newStart ses e).recurrence_group =
      e.recurrence_group := by
  unfold resizeRowMap
  cases ses.findIdx? (fun x => x.id == e.id) with
  | none => rfl
  | some k =>
    by_cases hk : k < n
    · simp only [hk, if_true]
      rfl
    · simp only [hk, if_false]

theorem resizeRowMap_eval_none (f : EditFields) (i n : ℕ) (newStart : ℤ)
    {ses : List ScheduleEntry} {e : ScheduleEntry}
    (h : ses.findIdx? (fun x => x.id == e.id) = none) :
    resizeRowMap f i n newStart ses e = e := by
  unfold resizeRowMap
  rw [h]

theorem resizeRowMap_eval_some (f : EditFields) (i n : ℕ) (newStart : ℤ)
    {ses : List ScheduleEntry} {e : ScheduleEntry} {k : ℕ}
    (h : ses.findIdx? (fun x => x.id == e.id) = some k) :
    resizeRowMap f i n newStart ses e =
      (if k < n then resizeUpd f i n newStart k e else e) := by
  unfold resizeRowMap
  rw [h]

/-- `lookupEntry` commutes with an id-preserving row map. -/
theorem lookupEntry_map {u : ScheduleEntry → ScheduleEntry}
    (hu : ∀ e, (u e).id = e.id) (entryId : ℕ) (store : List ScheduleEntry) :
    lookupEntry entryId (store.map u) = (lookupEntry entryId store).map u := by
  unfold lookupEntry
  rw [List.find?_map]
  have hpe : ((fun e => e.id == entryId) ∘ u) =
      (fun e : ScheduleEntry => e.id == entryId) := by
    funext e
    simp only [Function.comp]
    rw [hu]
  rw [hpe]

/-- `findIdx?` by id ignores an id-preserving row map of the searched
list. -/
theorem findIdx?_map_id {u : ScheduleEntry → ScheduleEntry}
    (hu : ∀ e, (u e).id = e.id) (c : ℕ) (l : List ScheduleEntry) :
    (l.map u).findIdx? (fun x => x.id == c) =
      l.findIdx? (fun x => x.id == c) := by
  rw [List.findIdx?_map]
  have hpe : ((fun x => x.id == c) ∘ u) =
      (fun x : ScheduleEntry => x.id == c) := by
    funext e
    simp only [Function.comp]
    rw [hu]
  rw [hpe]

/-- Applying the resize row map to the canonical member list itself updates
the first `n` members in place (by rank) and leaves the trailing members
untouched. -/
theorem map_resizeRowMap_self (f : EditFields) (i n : ℕ) (newStart : ℤ)
    {ses : List ScheduleEntry} (hid : (ses.map (fun e => e.id)).Nodup) :
    ses.map (resizeRowMap f i n newStart ses) =
      (ses.take n).mapIdx (fun k e => resizeUpd f i n newStart k e) ++
        ses.drop n := by
  refine List.ext_getElem ?_ ?_
  · rw [List.length_map, List.length_append, List.length_mapIdx,
      List.length_take, List.length_drop]
    omega
  · intro k h1 h2
    rw [List.getElem_map]
    have hk : k < ses.length := by simpa using h1
    have hfind : ses.findIdx? (fun x => x.id == (ses.get ⟨k, hk⟩).id) =
        some k := findIdx?_of_nodup_map (fun e => e.id) hid hk
    rw [List.get_eq_getElem] at hfind
    rw [resizeRowMap_eval_some f i n newStart hfind]
    rw [List.getElem_append]
    have hmlen : ((ses.take n).mapIdx
        (fun k e => resizeUpd f i n newStart k e)).length =
        min n ses.length := by
      rw [List.length_mapIdx, List.length_take]
    by_cases hkn : k < n
    · rw [if_pos hkn, dif_pos (by rw [hmlen]; omega)]
      rw [List.getElem_mapIdx, List.getElem_take]
    · rw [if_neg hkn, dif_neg (by rw [hmlen]; omega)]
      have hix : k - ((ses.take n).mapIdx
          (fun k e => resizeUpd f i n newStart k e)).length = k - n := by
        rw [hmlen]
        omega
      simp only [hix]
      rw [List.getElem_drop]
      have : n + (k - n) = k := by omega
      simp only [this]

/-- The resize target list splits into the in-place updates of the first
`min` old members followed by the newly created rows. -/
theorem resizeTargetList_split (grp : ℕ) (f : EditFields) (i n : ℕ)
    (newStart : ℤ) (es : List ScheduleEntry) (nextId : ℕ) :
    resizeTargetList grp f i n newStart es nextId =
      ((es.map (reindexMember es es.length)).take n).mapIdx
        (fun k e => resizeUpd f i n newStart k e) ++
      (List.range' es.length (n - es.length)).map
        (fun k => mkSeriesEntry (nextId + (k - es.length)) f grp i n
          (newStart + (i * k : ℕ)) (k + 1)) := by
  refine List.ext_getElem ?_ ?_
  · simp only [resizeTargetList, List.length_map, List.length_range,
      List.length_append, List.length_mapIdx, List.length_take,
      List.length_range']
    omega
  · intro k h1 h2
    have hkn : k < n := by
      unfold resizeTargetList at h1
      rw [List.length_map, List.length_range] at h1
      exact h1
    unfold resizeTargetList
    rw [List.getElem_map]
    have hmlen : (((es.map (reindexMember es es.length)).take n).mapIdx
        (fun k e => resizeUpd f i n newStart k e)).length =
        min n es.length := by
      rw [List.length_mapIdx, List.length_take, List.length_map]
    rw [List.getElem_append]
    unfold resizeTargetRow
    rw [List.getElem_range]
    by_cases hke : k < es.length
    · rw [dif_pos hke, dif_pos (by rw [hmlen]; omega)]
      rw [List.getElem_mapIdx, List.getElem_take, List.getElem_map]
      rw [List.get_eq_getElem]
    · rw [dif_neg hke, dif_neg (by rw [hmlen]; omega)]
      have hix : k - (((es.map (reindexMember es es.length)).take n).mapIdx
          (fun k e => resizeUpd f i n newStart k e)).length =
          k - es.length := by
        rw [hmlen]
        omega
      simp only [hix]
      rw [List.getElem_map, List.getElem_range']
      have : es.length + 1 * (k - es.length) = k := by omega
      simp only [this]

theorem resizeTargetRow_props (grp : ℕ) (f : EditFields) (i n : ℕ)
    (newStart : ℤ) (es : List ScheduleEntry) (nextId k : ℕ) :
    (resizeTargetRow grp f i n newStart es nextId k).date =
        newStart + (i * k : ℕ) ∧
    (resizeTargetRow grp f i n newStart es nextId k).recurrence_index =
        some (k + 1) ∧
    (resizeTargetRow grp f i n newStart es nextId
        k).recurrence_total_occurrences = some n ∧
    (resizeTargetRow grp f i n newStart es nextId
        k).recurrence_interval_days = some i ∧
    (resizeTargetRow grp f i n newStart es nextId k).teacher = f.teacher ∧
    (resizeTargetRow grp f i n newStart es nextId k).classroom =
        f.classroom ∧
    (resizeTargetRow grp f i n newStart es nextId k).subject = f.subject ∧
    (resizeTargetRow grp f i n newStart es nextId k).course = f.course ∧
    (resizeTargetRow grp f i n newStart es nextId k).group = f.group ∧
    (resizeTargetRow grp f i n newStart es nextId k).start_time =
        f.start_time ∧
    (resizeTargetRow grp f i n newStart es nextId k).end_time =
        f.end_time := by
  unfold resizeTargetRow
  by_cases h : k < es.length
  · rw [dif_pos h]
    exact ⟨rfl, rfl, rfl, rfl, rfl, rfl, rfl, rfl, rfl, rfl, rfl⟩
  · rw [dif_neg h]
    exact ⟨rfl, rfl, rfl, rfl, rfl, rfl, rfl, rfl, rfl, rfl, rfl⟩

theorem resizeTargetRow_rg (grp : ℕ) (f : EditFields) (i n : ℕ)
    (newStart : ℤ) {es : List ScheduleEntry} (nextId k : ℕ)
    (hmem : ∀ e ∈ es, e.recurrence_group = some grp) :
    (resizeTargetRow grp f i n newStart es nextId k).recurrence_group =
      some grp := by
  unfold resizeTargetRow
  by_cases h : k < es.length
  · rw [dif_pos h]
    rw [resizeUpd_recurrence_group, reindexMember_recurrence_group]
    exact hmem _ (es.get_mem _ _)
  · rw [dif_neg h]
    rfl

theorem resizeTargetRow_id (grp : ℕ) (f : EditFields) (i n : ℕ)
    (newStart : ℤ) (es : List ScheduleEntry) (nextId k : ℕ) :
    (resizeTargetRow grp f i n newStart es nextId k).id =
      if h : k < es.length then (es.get ⟨k, h⟩).id
      else nextId + (k - es.length) := by
  unfold resizeTargetRow
  by_cases h : k < es.length
  · rw [dif_pos h, dif_pos h, resizeUpd_id, reindexMember_id]
  · rw [dif_neg h, dif_neg h]
    rfl

theorem resizeTargetList_length (grp : ℕ) (f : EditFields) (i n : ℕ)
    (newStart : ℤ) (es : List ScheduleEntry) (nextId : ℕ) :
    (resizeTargetList grp f i n newStart es nextId).length = n := by
  unfold resizeTargetList
  rw [List.length_map, List.length_range]

theorem resizeTargetList_get {grp : ℕ} {f : EditFields} {i n : ℕ}
    {newStart : ℤ} {es : List ScheduleEntry} {nextId k : ℕ}
    (hk : k < (resizeTargetList grp f i n newStart es nextId).length) :
    (resizeTargetList grp f i n newStart es nextId).get ⟨k, hk⟩ =
      resizeTargetRow grp f i n newStart es nextId k := by
  unfold resizeTargetList
  rw [List.get_eq_getElem, List.getElem_map]
  congr 1
  exact List.getElem_range _ _

theorem resizeTargetList_sorted (grp : ℕ) (f : EditFields) {i : ℕ} (n : ℕ)
    (newStart : ℤ) (es : List ScheduleEntry) (nextId : ℕ) (hi : 1 ≤ i) :
    (resizeTargetList grp f i n newStart es nextId).Sorted entryKeyLE := by
  unfold resizeTargetList List.Sorted
  rw [List.pairwise_map]
  refine (List.pairwise_lt_range n).imp ?_
  intro a b hab
  unfold entryKeyLE
  left
  rw [(resizeTargetRow_props grp f i n newStart es nextId a).1,
    (resizeTargetRow_props grp f i n newStart es nextId b).1]
  have hmul : i * a < i * b := by
    have h2 : i * (a + 1) <= i * b := Nat.mul_le_mul (le_refl i) (by omega)
    have h3 : i * (a + 1) = i * a + i := by ring
    omega
  exact add_lt_add_left (by exact_mod_cast hmul) newStart

theorem resizeTargetList_ids (grp : ℕ) (f : EditFields) (i n : ℕ)
    (newStart : ℤ) {es : List ScheduleEntry} {nextId : ℕ}
    (hesid : (es.map (fun e => e.id)).Nodup)
    (hfr : ∀ e ∈ es, e.id < nextId) :
    ((resizeTargetList grp f i n newStart es nextId).map
      (fun e => e.id)).Nodup := by
  unfold resizeTargetList
  rw [List.map_map, List.Nodup, List.pairwise_map]
  refine (List.pairwise_lt_range n).imp ?_
  intro a b hab
  simp only [Function.comp]
  rw [resizeTargetRow_id, resizeTargetRow_id]
  by_cases ha : a < es.length
  · rw [dif_pos ha]
    by_cases hb : b < es.length
    · rw [dif_pos hb]
      intro hcon
      have h1 : (es.map (fun e => e.id)).get
          ⟨a, by rw [List.length_map]; exact ha⟩ =
          (es.map (fun e => e.id)).get
            ⟨b, by rw [List.length_map]; exact hb⟩ := by
        rw [List.get_eq_getElem, List.get_eq_getElem, List.getElem_map,
          List.getElem_map]
        rw [List.get_eq_getElem, List.get_eq_getElem] at hcon
        exact hcon
      have h2 := (hesid.get_inj_iff).mp h1
      have h3 : a = b := congrArg Fin.val h2
      omega
    · rw [dif_neg hb]
      have := hfr (es.get ⟨a, ha⟩) (List.get_mem es a ha)
      omega
  · rw [dif_neg ha]
    by_cases hb : b < es.length
    · omega
    · rw [dif_neg hb]
      omega

/-- A member list that already carries its canonical ranks and count is a
fixed point of the reindex pass. -/
theorem map_reindexMember_fix {T : List ScheduleEntry}
    (hid : (T.map (fun e => e.id)).Nodup)
    (hmeta : ∀ (k : ℕ) (hk : k < T.length),
      (T.get ⟨k, hk⟩).recurrence_index = some (k + 1) ∧
      (T.get ⟨k, hk⟩).recurrence_total_occurrences = some T.length) :
    T.map (reindexMember T T.length) = T := by
  refine List.ext_getElem (by rw [List.length_map]) ?_
  intro k h1 h2
  rw [List.getElem_map]
  have hk : k < T.length := h2
  have hrank := reindexMember_at_rank hid T.length hk
  rw [List.get_eq_getElem] at hrank
  rw [hrank]
  have hm := hmeta k hk
  rw [List.get_eq_getElem] at hm
  exact meta_update_self hm.1 hm.2

theorem resizeRowMap_eq_self {f : EditFields} {i n : ℕ} {ns : ℤ}
    {ses : List ScheduleEntry} {e : ScheduleEntry}
    (h : ∀ x ∈ ses, x.id ≠ e.id) : resizeRowMap f i n ns ses e = e := by
  apply resizeRowMap_eval_none
  rw [List.findIdx?_eq_none_iff]
  intro x hx
  simp [h x hx]

/-- Full characterisation of the series-resize edit branch: the members of
the original series end up being exactly the resize target list (old members
updated in place by rank, missing ranks created, trailing ranks deleted),
every other series' rows are untouched, and no row carrying one of the
trailing old members' ids survives. -/
theorem resize_characterization (store : List ScheduleEntry)
    (entryId grp i n nextId : ℕ) (f : EditFields) (entry0 : ScheduleEntry)
    (hid : nodupIds store) (hfresh : freshIds nextId store)
    (hfind : lookupEntry entryId store = some entry0)
    (hgrp : entry0.recurrence_group = some grp)
    (hi : 1 ≤ i) (hn : 1 ≤ n) :
    sortEntries ((edit_schedule_entry_resize entryId f i n nextId
        store).filter (memberOf grp)) =
      resizeTargetList grp f i n
        (f.date - (i * (seriesRank entryId grp store - 1) : ℕ))
        (sortEntries (store.filter (memberOf grp))) nextId ∧
    (∀ g', g' ≠ grp →
      (edit_schedule_entry_resize entryId f i n nextId store).filter
          (memberOf g') = store.filter (memberOf g')) ∧
    (∀ e' ∈ edit_schedule_entry_resize entryId f i n nextId store,
      ∀ x ∈ (sortEntries (store.filter (memberOf grp))).drop n,
        e'.id ≠ x.id) := by
  have hid0 : entry0.id = entryId := by simpa using List.find?_some hfind
  have hmem0 : entry0 ∈ store := List.mem_of_find?_eq_some hfind
  have hm0 : memberOf grp entry0 = true := by
    unfold memberOf
    simp [hgrp]
  have hmem0es : entry0 ∈ sortEntries (store.filter (memberOf grp)) :=
    mem_sorted_members hmem0 hm0
  have hesne : sortEntries (store.filter (memberOf grp)) ≠ [] := by
    intro hc
    rw [hc] at hmem0es
    cases hmem0es
  have hesid : ((sortEntries (store.filter (memberOf grp))).map
      (fun e => e.id)).Nodup := nodup_ids_sortEntries (nodup_ids_filter _ hid)
  have hesmem : ∀ e ∈ sortEntries (store.filter (memberOf grp)),
      e ∈ store := by
    intro e he
    unfold sortEntries at he
    rw [List.mem_insertionSort] at he
    exact List.mem_of_mem_filter he
  have hesrg : ∀ e ∈ sortEntries (store.filter (memberOf grp)),
      e.recurrence_group = some grp := by
    intro e he
    unfold sortEntries at he
    rw [List.mem_insertionSort] at he
    have := List.of_mem_filter he
    unfold memberOf at this
    simpa using this
  have hfres : ∀ e ∈ sortEntries (store.filter (memberOf grp)),
      e.id < nextId := fun e he => hfresh e (hesmem e he)
  obtain ⟨j, hj⟩ : ∃ j, (sortEntries (store.filter (memberOf grp))).findIdx?
      (fun x => x.id == entryId) = some j := by
    rcases hfi : (sortEntries (store.filter (memberOf grp))).findIdx?
        (fun x => x.id == entryId) with _ | j
    · rw [List.findIdx?_eq_none_iff] at hfi
      have := hfi entry0 hmem0es
      rw [hid0] at this
      simp at this
    · exact ⟨j, hfi⟩
  have hrank : seriesRank entryId grp store = j + 1 := by
    unfold seriesRank
    rw [hj]
    rfl
  have hlook1 : lookupEntry entryId (update_recurrence_metadata (some grp)
      store) = some (reindexRowMap grp (sortEntries (store.filter
        (memberOf grp))) entry0) := by
    rw [update_recurrence_metadata_eq_map grp store hesne,
      lookupEntry_map (reindexRowMap_id grp _), hfind]
    rfl
  have hrow0 : reindexRowMap grp (sortEntries (store.filter (memberOf grp)))
      entry0 =
      { entry0 with
        recurrence_index := some (j + 1)
        recurrence_total_occurrences :=
          some (sortEntries (store.filter (memberOf grp))).length } := by
    unfold reindexRowMap
    rw [if_pos hm0]
    refine reindexMember_eval _ ?_
    rw [hid0]
    exact hj
  have hr : (((lookupEntry entryId (update_recurrence_metadata (some grp)
      store)).getD entry0).recurrence_index).getD 1 = j + 1 := by
    rw [hlook1, hrow0]
    rfl
  rw [hrank]
  unfold edit_schedule_entry_resize
  rw [hfind]
  simp only []
  rw [hgrp]
  simp only []
  rw [sortIdx_members_after_reindex grp hid, hr]
  simp only [Nat.add_sub_cancel, List.length_map]
  have hdel : (((sortEntries (store.filter (memberOf grp))).map
      (reindexMember (sortEntries (store.filter (memberOf grp)))
        (sortEntries (store.filter (memberOf grp))).length)).drop n).map
      (fun e => e.id) =
      ((sortEntries (store.filter (memberOf grp))).drop n).map
        (fun e => e.id) := by
    rw [← List.map_drop, List.map_map]
    exact List.map_congr_left (fun e _ => reindexMember_id _ _ e)
  rw [hdel]
  set es := sortEntries (store.filter (memberOf grp)) with hes
  set ns : ℤ := f.date - (i * j : ℕ) with hns
  set sesL := es.map (reindexMember es es.length) with hsesL
  set st1 := update_recurrence_metadata (some grp) store with hst1
  set created := (List.range' es.length (n - es.length)).map
    (fun k => mkSeriesEntry (nextId + (k - es.length)) f grp i n
      (ns + (i * k : ℕ)) (k + 1)) with hcreated
  set nd := (fun e : ScheduleEntry =>
    !((es.drop n).map (fun e => e.id)).contains e.id) with hnd
  set mid := (st1.map (resizeRowMap f i n ns sesL) ++ created).filter nd
    with hmid
  have hlen_eq : sesL.length = es.length := by
    rw [hsesL, List.length_map]
  have hsesids_eq : sesL.map (fun e => e.id) = es.map (fun e => e.id) := by
    rw [hsesL]
    exact ids_map_reindexMember es es es.length rfl
  have hsesid : (sesL.map (fun e => e.id)).Nodup := by
    rw [hsesids_eq]
    exact hesid
  have hsesmem_id : ∀ x ∈ sesL, ∃ y ∈ es, y.id = x.id := by
    intro x hx
    rw [hsesL] at hx
    obtain ⟨y, hy, rfl⟩ := List.mem_map.mp hx
    exact ⟨y, hy, (reindexMember_id es es.length y).symm⟩
  have hnd_iff0 : ∀ e : ScheduleEntry, nd e = true ↔
      ¬ e.id ∈ (es.drop n).map (fun x => x.id) := by
    intro e
    rw [hnd]
    simp
  have hnd_iff : ∀ e : ScheduleEntry, nd e = true ↔
      ∀ x ∈ es.drop n, ¬ x.id = e.id := by
    intro e
    rw [hnd_iff0]
    constructor
    · intro h x hx hxe
      exact h (List.mem_map.mpr ⟨x, hx, hxe⟩)
    · intro h hmem
      obtain ⟨x, hx, hxe⟩ := List.mem_map.mp hmem
      exact h x hx hxe
  have hst1map : st1 = store.map (reindexRowMap grp es) := by
    rw [hst1, hes]
    exact update_recurrence_metadata_eq_map grp store hesne
  have hreorderP : ∀ (p : ScheduleEntry → Bool) (l : List ScheduleEntry),
      l.filter (fun a => p a && nd a) = (l.filter p).filter nd := by
    intro p l
    rw [List.filter_filter]
    refine List.filter_congr ?_
    intro a _
    rw [Bool.and_comm]
  have hcreated_mem : ∀ e ∈ created,
      memberOf grp e = true ∧ nextId ≤ e.id := by
    intro e he
    rw [hcreated] at he
    obtain ⟨k, hk, rfl⟩ := List.mem_map.mp he
    constructor
    · simp [memberOf, mkSeriesEntry]
    · simp [mkSeriesEntry]
  have hcreated_p : created.filter (memberOf grp) = created := by
    rw [List.filter_eq_self]
    intro e he
    exact (hcreated_mem e he).1
  have hcreated_nd : created.filter nd = created := by
    rw [List.filter_eq_self]
    intro e he
    obtain ⟨hm, hge⟩ := hcreated_mem e he
    refine (hnd_iff e).mpr ?_
    intro x hx hxid
    have hxes : x ∈ es := List.Sublist.mem hx (List.drop_sublist n es)
    have hlt := hfres x hxes
    omega
  have hfilter_p_map : (st1.map (resizeRowMap f i n ns sesL)).filter
      (memberOf grp) = (st1.filter (memberOf grp)).map
        (resizeRowMap f i n ns sesL) := by
    rw [List.filter_map]
    have hco : (memberOf grp ∘ resizeRowMap f i n ns sesL) =
        memberOf grp := by
      funext e
      show memberOf grp (resizeRowMap f i n ns sesL e) = memberOf grp e
      unfold memberOf
      rw [resizeRowMap_recurrence_group]
    rw [hco]
  have hfilter_p_st1 : st1.filter (memberOf grp) =
      (store.filter (memberOf grp)).map (reindexMember es es.length) := by
    rw [hst1, hes]
    exact filter_update_recurrence_metadata_self grp store
  have hmemperm : (st1.filter (memberOf grp)).Perm sesL := by
    rw [hfilter_p_st1, hsesL, hes]
    exact List.Perm.map _ (sortEntries_perm _).symm
  have hfilter_nd_first : ((sesL.take n).mapIdx
      (fun k e => resizeUpd f i n ns k e)).filter nd =
      (sesL.take n).mapIdx (fun k e => resizeUpd f i n ns k e) := by
    rw [List.filter_eq_self]
    intro e he
    obtain ⟨k, hk, hke⟩ := List.getElem_of_mem he
    rw [List.getElem_mapIdx] at hke
    have hkn : k < n := by
      have h1 := hk
      rw [List.length_mapIdx, List.length_take] at h1
      omega
    have hkl : k < sesL.length := by
      have h1 := hk
      rw [List.length_mapIdx, List.length_take] at h1
      omega
    have hkes : k < es.length := by omega
    have heid : e.id = sesL[k].id := by
      rw [← hke, resizeUpd_id, List.getElem_take]
    have hidk : sesL[k].id = es[k].id := by
      rw [List.getElem_map]
      exact reindexMember_id es es.length _
    refine (hnd_iff e).mpr ?_
    intro x hx hxid
    obtain ⟨m, hm, hgx⟩ := List.getElem_of_mem hx
    have hml : n + m < es.length := by
      rw [List.length_drop] at hm
      omega
    rw [List.getElem_drop] at hgx
    have hxk : es[n + m].id = es[k].id := by
      rw [hgx, hxid, heid, hidk]
    have hb1 : n + m < (es.map (fun e => e.id)).length := by
      rw [List.length_map]
      exact hml
    have hb2 : k < (es.map (fun e => e.id)).length := by
      rw [List.length_map]
      exact hkes
    have h2 : (es.map (fun e => e.id)).get ⟨n + m, hb1⟩ =
        (es.map (fun e => e.id)).get ⟨k, hb2⟩ := by
      rw [List.get_eq_getElem, List.get_eq_getElem, List.getElem_map,
        List.getElem_map]
      exact hxk
    have h3 := (List.Nodup.get_inj_iff hesid).mp h2
    have h4 : n + m = k := by
      simpa using h3
    omega
  have hfilter_nd_drop : (sesL.drop n).filter nd = [] := by
    rw [List.filter_eq_nil_iff]
    intro x hx
    rw [hsesL, ← List.map_drop] at hx
    obtain ⟨y, hy, rfl⟩ := List.mem_map.mp hx
    intro hc
    have h1 := (hnd_iff _).mp hc
    exact h1 y hy (reindexMember_id es es.length y).symm
  have hmid_p_eq : mid.filter (memberOf grp) =
      ((st1.filter (memberOf grp)).map
        (resizeRowMap f i n ns sesL)).filter nd ++ created := by
    rw [hmid, List.filter_filter, List.filter_append, hreorderP, hreorderP,
      hcreated_p, hcreated_nd, hfilter_p_map]
  have hperm_target : (mid.filter (memberOf grp)).Perm
      (resizeTargetList grp f i n ns es nextId) := by
    rw [hmid_p_eq, resizeTargetList_split, ← hsesL, ← hcreated]
    refine List.Perm.append ?_ (List.Perm.refl _)
    have h1 : (((st1.filter (memberOf grp)).map
        (resizeRowMap f i n ns sesL)).filter nd).Perm
        ((sesL.map (resizeRowMap f i n ns sesL)).filter nd) :=
      (hmemperm.map _).filter nd
    have h2 : (sesL.map (resizeRowMap f i n ns sesL)).filter nd =
        (sesL.take n).mapIdx (fun k e => resizeUpd f i n ns k e) := by
      rw [map_resizeRowMap_self f i n ns hsesid, List.filter_append,
        hfilter_nd_first, hfilter_nd_drop, List.append_nil]
    exact h2 ▸ h1
  have hconj1 : sortEntries ((update_recurrence_metadata (some grp)
      mid).filter (memberOf grp)) =
      resizeTargetList grp f i n ns es nextId := by
    rw [sorted_members_after_reindex grp mid]
    have hsm : sortEntries (mid.filter (memberOf grp)) =
        resizeTargetList grp f i n ns es nextId :=
      sortEntries_eq_of_perm hperm_target
        (resizeTargetList_sorted grp f n ns es nextId hi)
        (resizeTargetList_ids grp f i n ns hesid hfres)
    rw [hsm]
    refine map_reindexMember_fix
      (resizeTargetList_ids grp f i n ns hesid hfres) ?_
    intro k hk
    rw [resizeTargetList_get hk]
    constructor
    · exact (resizeTargetRow_props grp f i n ns es nextId k).2.1
    · rw [resizeTargetList_length]
      exact (resizeTargetRow_props grp f i n ns es nextId k).2.2.1
  have hconj2 : ∀ g', g' ≠ grp →
      (update_recurrence_metadata (some grp) mid).filter (memberOf g') =
        store.filter (memberOf g') := by
    intro g' hne
    rw [filter_update_recurrence_metadata_other hne mid]
    rw [hmid, List.filter_filter, List.filter_append, hreorderP, hreorderP]
    have hcg' : created.filter (memberOf g') = [] := by
      rw [List.filter_eq_nil_iff]
      intro e he
      rw [hcreated] at he
      obtain ⟨k, hk, rfl⟩ := List.mem_map.mp he
      intro hc
      unfold memberOf at hc
      simp [mkSeriesEntry] at hc
      exact hne hc.symm
    rw [hcg', List.filter_nil, List.append_nil]
    have hmapself : ∀ e ∈ st1.filter (memberOf g'),
        resizeRowMap f i n ns sesL e = e := by
      intro e he
      have heg : memberOf g' e = true := List.of_mem_filter he
      have hest1 : e ∈ st1 := List.mem_of_mem_filter he
      rw [hst1map] at hest1
      obtain ⟨z, hz, rfl⟩ := List.mem_map.mp hest1
      refine resizeRowMap_eq_self ?_
      intro x hx hcon
      obtain ⟨y, hy, hyx⟩ := hsesmem_id x hx
      have hyz : y = z := entry_id_inj hid y (hesmem y hy) z hz
        (by rw [hyx, hcon, reindexRowMap_id])
      have heg' : z.recurrence_group = some g' := by
        unfold memberOf at heg
        rw [reindexRowMap_recurrence_group] at heg
        simpa using heg
      have hgg : some grp = some g' := by
        rw [← hesrg y hy, hyz, heg']
      simp at hgg
      exact hne hgg.symm
    have hA : (st1.map (resizeRowMap f i n ns sesL)).filter
        (memberOf g') = st1.filter (memberOf g') := by
      rw [List.filter_map]
      have hco : (memberOf g' ∘ resizeRowMap f i n ns sesL) =
          memberOf g' := by
        funext e
        show memberOf g' (resizeRowMap f i n ns sesL e) = memberOf g' e
        unfold memberOf
        rw [resizeRowMap_recurrence_group]
      rw [hco, List.map_congr_left hmapself, List.map_id']
    rw [hA, hst1, filter_update_recurrence_metadata_other hne store]
    rw [List.filter_eq_self]
    intro e he
    have heg : memberOf g' e = true := List.of_mem_filter he
    have hest : e ∈ store := List.mem_of_mem_filter he
    refine (hnd_iff e).mpr ?_
    intro x hx hxid
    have hxes : x ∈ es := List.Sublist.mem hx (List.drop_sublist n es)
    have hxe : x = e := entry_id_inj hid x (hesmem x hxes) e hest hxid
    have h1 : e.recurrence_group = some grp := hxe ▸ hesrg x hxes
    unfold memberOf at heg
    rw [h1] at heg
    simp at heg
    exact hne heg.symm
  have hconj3 : ∀ e' ∈ update_recurrence_metadata (some grp) mid,
      ∀ x ∈ es.drop n, e'.id ≠ x.id := by
    intro e' he' x hx
    obtain ⟨y, hy, hyid⟩ := mem_id_update_recurrence_metadata he'
    rw [hmid] at hy
    have hnd_y : nd y = true := List.of_mem_filter hy
    have h1 := (hnd_iff y).mp hnd_y
    intro hcon
    exact h1 x hx (by rw [hyid, hcon])
  exact ⟨hconj1, hconj2, hconj3⟩

/-- **C2** counterexample: in the concrete three-member series `sampleStore`
(ranks 1..3 dated 10, 17, 24), editing the rank-3 occurrence (id 3) with
scope=series, new interval 7 and new count 2 deletes that occurrence
outright — no surviving row carries its id, and no surviving row is dated on
the submitted date 100 — refuting the claim's final clause that the edited
occurrence always ends up dated on the submitted date. -/
theorem C2_resize_series_counterexample :
    lookupEntry 3 sampleStore = some (mkSample 3 24 540 600 3 3) ∧
    (mkSample 3 24 540 600 3 3).recurrence_group = some 5 ∧
    seriesRank 3 5 sampleStore = 3 ∧
    (∀ e ∈ edit_schedule_entry_resize 3 sampleFields 7 2 10 sampleStore,
      e.id ≠ 3 ∧ e.date ≠ sampleFields.date) := by
  decide

/-- **C2** (corrected). Series edit with recurrence kept on (interval `i ≥ 1`,
new count `n ≥ 2`): writing `r` for the edited occurrence's rank after the
initial reindex and `new_start = submitted date − i·(r−1)`, the series'
member rows afterwards, in canonical order, are exactly the resize target
list — ranks `1..min(old count, n)` are the pre-existing records updated in
place in rank order, ranks beyond the old count are freshly created rows,
and old members at ranks beyond `n` are deleted (no surviving row carries
their ids) — with dates `new_start + i·(k−1)`, `series_position = k` and
`total_occurrences = n` throughout, while every other series' rows are
untouched.  The claim's last clause holds only conditionally: when `r ≤ n`
the target member at rank `r` is the edited record itself (same id) dated
exactly on the submitted date; when `r > n` the edited record is deleted,
as the counterexample shows. -/
theorem C2_resize_series (store : List ScheduleEntry)
    (entryId grp i n nextId : ℕ) (f : EditFields) (entry0 : ScheduleEntry)
    (hid : nodupIds store) (hfresh : freshIds nextId store)
    (hfind : lookupEntry entryId store = some entry0)
    (hgrp : entry0.recurrence_group = some grp)
    (hi : 1 ≤ i) (hn : 2 ≤ n) :
    sortEntries ((edit_schedule_entry_resize entryId f i n nextId
        store).filter (memberOf grp)) =
      resizeTargetList grp f i n
        (f.date - (i * (seriesRank entryId grp store - 1) : ℕ))
        (sortEntries (store.filter (memberOf grp))) nextId ∧
    (∀ g', g' ≠ grp →
      (edit_schedule_entry_resize entryId f i n nextId store).filter
          (memberOf g') = store.filter (memberOf g')) ∧
    (∀ e' ∈ edit_schedule_entry_resize entryId f i n nextId store,
      ∀ x ∈ (sortEntries (store.filter (memberOf grp))).drop n,
        e'.id ≠ x.id) ∧
    (seriesRank entryId grp store ≤ n →
      ∃ (hk : seriesRank entryId grp store - 1 <
          (resizeTargetList grp f i n
            (f.date - (i * (seriesRank entryId grp store - 1) : ℕ))
            (sortEntries (store.filter (memberOf grp))) nextId).length),
        ((resizeTargetList grp f i n
            (f.date - (i * (seriesRank entryId grp store - 1) : ℕ))
            (sortEntries (store.filter (memberOf grp))) nextId).get
          ⟨seriesRank entryId grp store - 1, hk⟩).date = f.date ∧
        ((resizeTargetList grp f i n
            (f.date - (i * (seriesRank entryId grp store - 1) : ℕ))
            (sortEntries (store.filter (memberOf grp))) nextId).get
          ⟨seriesRank entryId grp store - 1, hk⟩).id = entryId) := by
  obtain ⟨h1, h2, h3⟩ := resize_characterization store entryId grp i n
    nextId f entry0 hid hfresh hfind hgrp hi (by omega)
  refine ⟨h1, h2, h3, ?_⟩
  have hid0 : entry0.id = entryId := by simpa using List.find?_some hfind
  have hmem0 : entry0 ∈ store := List.mem_of_find?_eq_some hfind
  have hm0 : memberOf grp entry0 = true := by
    unfold memberOf
    simp [hgrp]
  have hmem0es : entry0 ∈ sortEntries (store.filter (memberOf grp)) :=
    mem_sorted_members hmem0 hm0
  obtain ⟨j, hj⟩ : ∃ j, (sortEntries (store.filter (memberOf grp))).findIdx?
      (fun x => x.id == entryId) = some j := by
    rcases hfi : (sortEntries (store.filter (memberOf grp))).findIdx?
        (fun x => x.id == entryId) with _ | j
    · rw [List.findIdx?_eq_none_iff] at hfi
      have := hfi entry0 hmem0es
      rw [hid0] at this
      simp at this
    · exact ⟨j, hfi⟩
  have hrank : seriesRank entryId grp store = j + 1 := by
    unfold seriesRank
    rw [hj]
    rfl
  intro hrn
  have hrn2 : j + 1 ≤ n := by
    rw [hrank] at hrn
    exact hrn
  have hsimp : seriesRank entryId grp store - 1 = j := by
    rw [hrank]
    omega
  rw [hsimp]
  rw [List.findIdx?_eq_some_iff_getElem] at hj
  obtain ⟨hjes, hpj, _⟩ := hj
  have hjid : (sortEntries (store.filter (memberOf grp)))[j].id =
      entryId := by
    simpa using hpj
  have hlen : (resizeTargetList grp f i n (f.date - (i * j : ℕ))
      (sortEntries (store.filter (memberOf grp))) nextId).length = n :=
    resizeTargetList_length grp f i n _ _ nextId
  have hjn : j < n := by omega
  have hk : j < (resizeTargetList grp f i n (f.date - (i * j : ℕ))
      (sortEntries (store.filter (memberOf grp))) nextId).length := by
    rw [hlen]
    exact hjn
  refine ⟨hk, ?_, ?_⟩
  · rw [resizeTargetList_get hk]
    rw [(resizeTargetRow_props grp f i n (f.date - (i * j : ℕ))
      (sortEntries (store.filter (memberOf grp))) nextId j).1]
    ring
  · rw [resizeTargetList_get hk]
    rw [resizeTargetRow_id grp f i n (f.date - (i * j : ℕ))
      (sortEntries (store.filter (memberOf grp))) nextId j]
    rw [dif_pos hjes]
    rw [List.get_eq_getElem]
    exact hjid

/-- Witness for C2: in the concrete three-member series `sampleStore`,
editing the rank-2 occurrence (id 2) with scope=series, interval 7 and new
count 2 resizes the series to the two-member target list, leaves other
series untouched, drops the old rank-3 id, and — since rank 2 ≤ 2 — lands
the edited record on the submitted date 100. -/
theorem C2_resize_series_witness :
    sortEntries ((edit_schedule_entry_resize 2 sampleFields 7 2 10
        sampleStore).filter (memberOf 5)) =
      resizeTargetList 5 sampleFields 7 2
        (sampleFields.date - (7 * (seriesRank 2 5 sampleStore - 1) : ℕ))
        (sortEntries (sampleStore.filter (memberOf 5))) 10 ∧
    (∀ g', g' ≠ 5 →
      (edit_schedule_entry_resize 2 sampleFields 7 2 10 sampleStore).filter
          (memberOf g') = sampleStore.filter (memberOf g')) ∧
    (∀ e' ∈ edit_schedule_entry_resize 2 sampleFields 7 2 10 sampleStore,
      ∀ x ∈ (sortEntries (sampleStore.filter (memberOf 5))).drop 2,
        e'.id ≠ x.id) ∧
    (seriesRank 2 5 sampleStore ≤ 2 →
      ∃ (hk : seriesRank 2 5 sampleStore - 1 <
          (resizeTargetList 5 sampleFields 7 2
            (sampleFields.date - (7 * (seriesRank 2 5 sampleStore - 1) : ℕ))
            (sortEntries (sampleStore.filter (memberOf 5))) 10).length),
        ((resizeTargetList 5 sampleFields 7 2
            (sampleFields.date - (7 * (seriesRank 2 5 sampleStore - 1) : ℕ))
            (sortEntries (sampleStore.filter (memberOf 5))) 10).get
          ⟨seriesRank 2 5 sampleStore - 1, hk⟩).date = sampleFields.date ∧
        ((resizeTargetList 5 sampleFields 7 2
            (sampleFields.date - (7 * (seriesRank 2 5 sampleStore - 1) : ℕ))
            (sortEntries (sampleStore.filter (memberOf 5))) 10).get
          ⟨seriesRank 2 5 sampleStore - 1, hk⟩).id = 2) :=
  C2_resize_series sampleStore 2 5 7 2 10 sampleFields
    (mkSample 2 17 540 600 2 3) (by decide) (by decide) (by decide)
    (by decide) (by decide) (by decide)

/-! ## Invariant preservation across the mutation surface -/

/-- A store whose members for a group coincide with those of an
invariant-satisfying store satisfies that group's invariant. -/
theorem seriesOk_carryover {g : ℕ} {store1 store2 : List ScheduleEntry}
    (hfil : store1.filter (memberOf g) = store2.filter (memberOf g))
    (hinv : seriesInvariant store2) : seriesOk g store1 = true := by
  rw [seriesOk_of_filter_eq hfil]
  by_cases hg : g ∈ store2.filterMap (fun e => e.recurrence_group)
  · exact hinv g hg
  · refine seriesOk_of_no_members ?_
    rw [List.filter_eq_nil_iff]
    intro e he hc
    refine hg (List.mem_filterMap.mpr ⟨e, he, ?_⟩)
    unfold memberOf at hc
    simpa using hc

/-- A store whose members coincide groupwise (for each of its own groups)
with an invariant-satisfying store satisfies the invariant. -/
theorem seriesInvariant_of_filters {result store : List ScheduleEntry}
    (h : ∀ g, g ∈ result.filterMap (fun e => e.recurrence_group) →
      result.filter (memberOf g) = store.filter (memberOf g))
    (hinv : seriesInvariant store) : seriesInvariant result := by
  intro g hg
  exact seriesOk_carryover (h g hg) hinv

/-- Running a reindex on one group of a store whose other groups' members
coincide with those of an invariant-satisfying store yields an
invariant-satisfying store. -/
theorem seriesInvariant_reindexed {grp : ℕ} {mid store : List ScheduleEntry}
    (hmid : nodupIds mid)
    (hother : ∀ g, g ≠ grp →
      mid.filter (memberOf g) = store.filter (memberOf g))
    (hinv : seriesInvariant store) :
    seriesInvariant (update_recurrence_metadata (some grp) mid) := by
  intro g _
  by_cases hgg : g = grp
  · subst hgg
    exact seriesOk_update_self g hmid
  · refine seriesOk_carryover ?_ hinv
    rw [filter_update_recurrence_metadata_other hgg mid]
    exact hother g hgg

/-- Appending rows that are all outside a group leaves the group's member
list unchanged. -/
theorem filter_append_none {rows store : List ScheduleEntry} {g : ℕ}
    (hrows : ∀ e ∈ rows, memberOf g e = false) :
    (store ++ rows).filter (memberOf g) = store.filter (memberOf g) := by
  rw [List.filter_append]
  have h0 : rows.filter (memberOf g) = [] := by
    rw [List.filter_eq_nil_iff]
    intro e he
    simp [hrows e he]
  rw [h0, List.append_nil]

/-- A rowwise update that never moves a row into the group and fixes the
group's own rows leaves the group's member list unchanged. -/
theorem filter_map_untouched {u : ScheduleEntry → ScheduleEntry}
    {store : List ScheduleEntry} {g : ℕ}
    (hmem : ∀ e ∈ store, memberOf g (u e) = memberOf g e)
    (hfix : ∀ e ∈ store, memberOf g e = true → u e = e) :
    (store.map u).filter (memberOf g) = store.filter (memberOf g) := by
  rw [List.filter_map]
  have h1 : store.filter (memberOf g ∘ u) = store.filter (memberOf g) :=
    List.filter_congr (fun e he => hmem e he)
  rw [h1]
  have h2 : ∀ e ∈ store.filter (memberOf g), u e = e := by
    intro e he
    exact hfix e (List.mem_of_mem_filter he) (List.of_mem_filter he)
  rw [List.map_congr_left h2, List.map_id']

/-- Deleting only rows outside a group leaves the group's member list
unchanged. -/
theorem filter_filter_untouched {q : ScheduleEntry → Bool}
    {store : List ScheduleEntry} {g : ℕ}
    (hq : ∀ e ∈ store, memberOf g e = true → q e = true) :
    (store.filter q).filter (memberOf g) = store.filter (memberOf g) := by
  rw [List.filter_comm]
  rw [List.filter_eq_self]
  intro e he
  exact hq e (List.mem_of_mem_filter he) (List.of_mem_filter he)

/-- Appending rows with fresh primary keys keeps primary keys distinct. -/
theorem nodup_ids_append_fresh {store newRows : List ScheduleEntry}
    {nextId : ℕ} (hid : nodupIds store) (hfresh : freshIds nextId store)
    (hnew : (newRows.map (fun e => e.id)).Nodup)
    (hge : ∀ e ∈ newRows, nextId ≤ e.id) :
    nodupIds (store ++ newRows) := by
  unfold nodupIds
  rw [List.map_append]
  refine List.Nodup.append hid hnew ?_
  intro a ha hb
  obtain ⟨e, he, rfl⟩ := List.mem_map.mp ha
  obtain ⟨x, hx, hxe⟩ := List.mem_map.mp hb
  have h1 := hfresh e he
  have h2 := hge x hx
  omega

/-- Rows whose primary keys enumerate `nextId + k` have distinct keys. -/
theorem nodup_ids_fresh_rows (m nextId : ℕ) (mk : ℕ → ScheduleEntry)
    (hmk : ∀ k, (mk k).id = nextId + k) :
    (((List.range m).map mk).map (fun e => e.id)).Nodup := by
  rw [List.map_map]
  have h1 : (List.range m).map ((fun e : ScheduleEntry => e.id) ∘ mk) =
      (List.range m).map (fun k => nextId + k) :=
    List.map_congr_left (fun k _ => hmk k)
  rw [h1]
  refine List.Nodup.map ?_ (List.nodup_range m)
  intro a b hab
  simp only [] at hab
  omega

/-- A rowwise update that preserves primary keys keeps them distinct. -/
theorem nodup_ids_map_of_id_preserving {store : List ScheduleEntry}
    {u : ScheduleEntry → ScheduleEntry} (hu : ∀ e, (u e).id = e.id)
    (hid : nodupIds store) : nodupIds (store.map u) := by
  unfold nodupIds
  rw [List.map_map]
  rw [show ((fun e : ScheduleEntry => e.id) ∘ u) =
    (fun e : ScheduleEntry => e.id) from funext (fun e => hu e)]
  exact hid

/-- A rowwise update that preserves primary keys keeps them fresh. -/
theorem fresh_ids_map_of_id_preserving {store : List ScheduleEntry}
    {u : ScheduleEntry → ScheduleEntry} {nextId : ℕ}
    (hu : ∀ e, (u e).id = e.id) (hfresh : freshIds nextId store) :
    freshIds nextId (store.map u) := by
  intro e he
  obtain ⟨x, hx, rfl⟩ := List.mem_map.mp he
  rw [hu x]
  exact hfresh x hx

/-- A series whose canonical member list after a mutation is a resize
target list satisfies the invariant for that series. -/
theorem seriesOk_of_resize_target {result : List ScheduleEntry} {grp : ℕ}
    {f : EditFields} {i n : ℕ} {ns : ℤ} {es : List ScheduleEntry}
    {nextId : ℕ}
    (h : sortEntries (result.filter (memberOf grp)) =
      resizeTargetList grp f i n ns es nextId) :
    seriesOk grp result = true := by
  unfold seriesOk
  rw [h]
  rw [List.all_eq_true]
  intro x hx
  rw [List.mem_range] at hx
  have hget : (resizeTargetList grp f i n ns es nextId).get? x =
      some (resizeTargetRow grp f i n ns es nextId x) := by
    rw [List.get?_eq_getElem?, List.getElem?_eq_getElem hx]
    have hg := resizeTargetList_get hx
    rw [List.get_eq_getElem] at hg
    rw [hg]
  rw [hget]
  have hp := resizeTargetRow_props grp f i n ns es nextId x
  simp only []
  rw [hp.2.1, hp.2.2.1, resizeTargetList_length]
  simp

/-- Boolean form of distinctness of two wrapped group ids. -/
theorem beq_some_ne {a b : ℕ} (h : ¬ a = b) :
    ((some a : Option ℕ) == some b) = false := by
  simp
  exact h

/-- A null group never equals a wrapped one. -/
theorem beq_none_some (b : ℕ) : ((none : Option ℕ) == some b) = false := rfl

/-- Reindexing with a null group id is a no-op. -/
theorem update_none (store : List ScheduleEntry) :
    update_recurrence_metadata none store = store := rfl

/-- **C5** counterexample: the invariant-satisfying two-member series
`samplePastStore` (ranks 1, 2 dated 10, 17) loses its first member to
`cleanup_past_entries` on day 17 at 550 minutes, and — since cleanup never
reindexes — the surviving member still claims rank 2 of 2, breaking the
invariant.  `CleanupPastEntries`, which the claim includes in the mutation
surface, therefore does not preserve the invariant. -/
theorem C5_invariant_counterexample :
    seriesInvariant samplePastStore ∧
    ¬ seriesInvariant (cleanup_past_entries 17 550 samplePastStore) := by
  decide

/-- **C5** (corrected). Every operation of the recurrence engine's mutation
surface proper — creation (single and recurring), all four edit branches in
both scopes, deletion in both scopes, and a bare reindex — preserves the
recurrence invariant (each series' positions are exactly 1..N in canonical
order with `total_occurrences = N`), under each operation's validity
preconditions (distinct primary keys, fresh generated keys, interval ≥ 1,
occurrence count ≥ 2 where applicable).  `CleanupPastEntries`, which the
claim also lists, is excluded: it deletes past members without reindexing
and breaks the invariant (see the counterexample; the spec itself flags
this gap in §9). -/
theorem C5_invariant_preserved (op : MutationOp)
    (store : List ScheduleEntry) (hv : opValid op store)
    (hinv : seriesInvariant store) : seriesInvariant (applyOp op store) := by
  cases op with
  | createSingle nextId f =>
    show seriesInvariant (create_schedule_entry_single nextId f store)
    refine seriesInvariant_of_filters (fun g _ => ?_) hinv
    unfold create_schedule_entry_single
    refine filter_append_none ?_
    intro e he
    rw [List.mem_singleton] at he
    subst he
    rfl
  | createRecurring nextId grp f i n =>
    obtain ⟨hid, hfresh, hi, hn⟩ := hv
    show seriesInvariant
      (create_schedule_entry_recurring nextId grp f i n store)
    unfold create_schedule_entry_recurring
    refine seriesInvariant_reindexed ?_ ?_ hinv
    · refine nodup_ids_append_fresh hid hfresh ?_ ?_
      · exact nodup_ids_fresh_rows n nextId _ (fun k => rfl)
      · intro e he
        obtain ⟨k, hk, rfl⟩ := List.mem_map.mp he
        exact Nat.le_add_right nextId k
    · intro g hne
      refine filter_append_none ?_
      intro e he
      obtain ⟨k, hk, rfl⟩ := List.mem_map.mp he
      unfold memberOf
      rw [show (mkSeriesEntry (nextId + k) f grp i n
        (f.date + (i * k : ℕ)) (k + 1)).recurrence_group = some grp
        from rfl]
      exact beq_some_ne (fun hc => hne hc.symm)
  | editPlain entryId f =>
    have hstd : targetStandalone entryId store := hv
    show seriesInvariant (edit_schedule_entry_plain entryId f store)
    rcases hfind : lookupEntry entryId store with _ | entry0
    · have hsame : edit_schedule_entry_plain entryId f store = store := by
        unfold edit_schedule_entry_plain
        rw [hfind]
      rw [hsame]
      exact hinv
    · have hsame : edit_schedule_entry_plain entryId f store =
          store.map (fun e =>
            if e.id == entryId then applyFields f e else e) := by
        unfold edit_schedule_entry_plain
        rw [hfind]
      rw [hsame]
      refine seriesInvariant_of_filters (fun g _ => ?_) hinv
      refine filter_map_untouched ?_ ?_
      · intro e he
        by_cases hc : e.id == entryId
        · rw [if_pos hc]
          rfl
        · rw [if_neg hc]
      · intro e he hm
        by_cases hc : e.id == entryId
        · exfalso
          have h0 := hstd e he (by simpa using hc)
          unfold memberOf at hm
          rw [h0] at hm
          simp at hm
        · rw [if_neg hc]
  | editAttach entryId f i n grp nextId =>
    obtain ⟨hstd, hid, hfresh, hi, hn⟩ := hv
    show seriesInvariant
      (edit_schedule_entry_attach entryId f i n grp nextId store)
    rcases hfind : lookupEntry entryId store with _ | entry0
    · have hsame : edit_schedule_entry_attach entryId f i n grp nextId
          store = store := by
        unfold edit_schedule_entry_attach
        rw [hfind]
      rw [hsame]
      exact hinv
    · have hsame : edit_schedule_entry_attach entryId f i n grp nextId
          store =
          update_recurrence_metadata (some grp)
            ((store.map (fun e =>
              if e.id == entryId then
                { applyFields f e with
                  recurrence_group := some grp
                  recurrence_interval_days := some i
                  recurrence_total_occurrences := some n
                  recurrence_index := some 1 }
              else e)) ++
            (List.range (n - 1)).map (fun k =>
              mkSeriesEntry (nextId + k) f grp i n
                (f.date + (i * (k + 1) : ℕ)) (k + 2))) := by
        unfold edit_schedule_entry_attach
        rw [hfind]
      rw [hsame]
      refine seriesInvariant_reindexed ?_ ?_ hinv
      · refine nodup_ids_append_fresh
          (nodup_ids_map_of_id_preserving ?_ hid)
          (fresh_ids_map_of_id_preserving ?_ hfresh) ?_ ?_
        · intro e
          by_cases hc : e.id == entryId
          · rw [if_pos hc]
            rfl
          · rw [if_neg hc]
        · intro e
          by_cases hc : e.id == entryId
          · rw [if_pos hc]
            rfl
          · rw [if_neg hc]
        · exact nodup_ids_fresh_rows (n - 1) nextId _ (fun k => rfl)
        · intro e he
          obtain ⟨k, hk, rfl⟩ := List.mem_map.mp he
          exact Nat.le_add_right nextId k
      · intro g hne
        refine Eq.trans (filter_append_none ?_)
          (filter_map_untouched ?_ ?_)
        · intro e he
          obtain ⟨k, hk, rfl⟩ := List.mem_map.mp he
          unfold memberOf
          rw [show (mkSeriesEntry (nextId + k) f grp i n
            (f.date + (i * (k + 1) : ℕ)) (k + 2)).recurrence_group =
            some grp from rfl]
          exact beq_some_ne (fun hc => hne hc.symm)
        · intro e he
          by_cases hc : e.id == entryId
          · rw [if_pos hc]
            have h0 := hstd e he (by simpa using hc)
            show ((some grp : Option ℕ) == some g) = memberOf g e
            unfold memberOf
            rw [h0, beq_some_ne (fun hc2 => hne hc2.symm), beq_none_some]
          · rw [if_neg hc]
        · intro e he hm
          by_cases hc : e.id == entryId
          · exfalso
            have h0 := hstd e he (by simpa using hc)
            unfold memberOf at hm
            rw [h0] at hm
            simp at hm
          · rw [if_neg hc]
  | editDetachSeries entryId f =>
    show seriesInvariant (edit_schedule_entry_detach_series entryId f store)
    rcases hfind : lookupEntry entryId store with _ | entry0
    · have hsame : edit_schedule_entry_detach_series entryId f store =
          store := by
        unfold edit_schedule_entry_detach_series
        rw [hfind]
      rw [hsame]
      exact hinv
    · rcases hgrp : entry0.recurrence_group with _ | grp
      · have hsame : edit_schedule_entry_detach_series entryId f store =
            store := by
          unfold edit_schedule_entry_detach_series
          rw [hfind]
          simp only []
          rw [hgrp]
        rw [hsame]
        exact hinv
      · have hsame : edit_schedule_entry_detach_series entryId f store =
            store.map (fun e =>
              if memberOf grp e then
                { applyFields f e with
                  date := e.date + (f.date - entry0.date)
                  recurrence_group := none
                  recurrence_interval_days := none
                  recurrence_total_occurrences := none
                  recurrence_index := none }
              else e) := by
          unfold edit_schedule_entry_detach_series
          rw [hfind]
          simp only []
          rw [hgrp]
        rw [hsame]
        refine seriesInvariant_of_filters (fun g hg => ?_) hinv
        have hgne : g ≠ grp := by
          intro hcon
          subst hcon
          obtain ⟨e', he', hrg⟩ := List.mem_filterMap.mp hg
          obtain ⟨x, hx, rfl⟩ := List.mem_map.mp he'
          by_cases hc : memberOf g x
          · rw [if_pos hc] at hrg
            exact Option.noConfusion
              (show (none : Option ℕ) = some g from hrg)
          · rw [if_neg hc] at hrg
            unfold memberOf at hc
            rw [hrg] at hc
            simp at hc
        refine filter_map_untouched ?_ ?_
        · intro e he
          by_cases hc : memberOf grp e
          · rw [if_pos hc]
            show (false : Bool) = memberOf g e
            symm
            have h2 : e.recurrence_group = some grp := by
              unfold memberOf at hc
              simpa using hc
            unfold memberOf
            rw [h2]
            exact beq_some_ne (fun hcon => hgne hcon.symm)
          · rw [if_neg hc]
        · intro e he hm
          by_cases hc : memberOf grp e
          · exfalso
            have h2 : e.recurrence_group = some grp := by
              unfold memberOf at hc
              simpa using hc
            unfold memberOf at hm
            rw [h2, beq_some_ne (fun hcon => hgne hcon.symm)] at hm
            simp at hm
          · rw [if_neg hc]
  | editDetachSingle entryId f =>
    have hid : nodupIds store := hv
    show seriesInvariant (edit_schedule_entry_detach_single entryId f store)
    rcases hfind : lookupEntry entryId store with _ | entry0
    · have hsame : edit_schedule_entry_detach_single entryId f store =
          store := by
        unfold edit_schedule_entry_detach_single
        rw [hfind]
      rw [hsame]
      exact hinv
    · have hid0 : entry0.id = entryId := by
        simpa using List.find?_some hfind
      have hmem0 : entry0 ∈ store := List.mem_of_find?_eq_some hfind
      have hsame : edit_schedule_entry_detach_single entryId f store =
          update_recurrence_metadata entry0.recurrence_group
            (store.map (fun e =>
              if e.id == entryId then
                { applyFields f e with
                  recurrence_group := none
                  recurrence_interval_days := none
                  recurrence_total_occurrences := none
                  recurrence_index := none }
              else e)) := by
        unfold edit_schedule_entry_detach_single
        rw [hfind]
      rw [hsame]
      rcases hgrp : entry0.recurrence_group with _ | grp
      · rw [update_none]
        refine seriesInvariant_of_filters (fun g _ => ?_) hinv
        refine filter_map_untouched ?_ ?_
        · intro e he
          by_cases hc : e.id == entryId
          · rw [if_pos hc]
            have he0 : e = entry0 := entry_id_inj hid e he entry0 hmem0
              (by rw [hid0]; simpa using hc)
            show (false : Bool) = memberOf g e
            symm
            unfold memberOf
            rw [he0, hgrp]
            exact beq_none_some g
          · rw [if_neg hc]
        · intro e he hm
          by_cases hc : e.id == entryId
          · exfalso
            have he0 : e = entry0 := entry_id_inj hid e he entry0 hmem0
              (by rw [hid0]; simpa using hc)
            unfold memberOf at hm
            rw [he0, hgrp] at hm
            simp at hm
          · rw [if_neg hc]
      · refine seriesInvariant_reindexed ?_ ?_ hinv
        · refine nodup_ids_map_of_id_preserving ?_ hid
          intro e
          by_cases hc : e.id == entryId
          · rw [if_pos hc]
            rfl
          · rw [if_neg hc]
        · intro g hne
          refine filter_map_untouched ?_ ?_
          · intro e he
            by_cases hc : e.id == entryId
            · rw [if_pos hc]
              have he0 : e = entry0 := entry_id_inj hid e he entry0 hmem0
                (by rw [hid0]; simpa using hc)
              show (false : Bool) = memberOf g e
              symm
              unfold memberOf
              rw [he0, hgrp]
              exact beq_some_ne (fun hcon => hne hcon.symm)
            · rw [if_neg hc]
          · intro e he hm
            by_cases hc : e.id == entryId
            · exfalso
              have he0 : e = entry0 := entry_id_inj hid e he entry0 hmem0
                (by rw [hid0]; simpa using hc)
              unfold memberOf at hm
              rw [he0, hgrp,
                beq_some_ne (fun hcon => hne hcon.symm)] at hm
              simp at hm
            · rw [if_neg hc]
  | editResize entryId f i n nextId =>
    obtain ⟨hid, hfresh, hi, hn⟩ := hv
    show seriesInvariant
      (edit_schedule_entry_resize entryId f i n nextId store)
    rcases hfind : lookupEntry entryId store with _ | entry0
    · have hsame : edit_schedule_entry_resize entryId f i n nextId store =
          store := by
        unfold edit_schedule_entry_resize
        rw [hfind]
      rw [hsame]
      exact hinv
    · rcases hgrp : entry0.recurrence_group with _ | grp
      · have hsame : edit_schedule_entry_resize entryId f i n nextId
            store = store := by
          unfold edit_schedule_entry_resize
          rw [hfind]
          simp only []
          rw [hgrp]
        rw [hsame]
        exact hinv
      · obtain ⟨h1, h2, h3⟩ := resize_characterization store entryId grp
          i n nextId f entry0 hid hfresh hfind hgrp hi (by omega)
        intro g _
        by_cases hgg : g = grp
        · subst hgg
          exact seriesOk_of_resize_target h1
        · exact seriesOk_carryover (h2 g hgg) hinv
  | editSingleInSeries entryId f =>
    have hid : nodupIds store := hv
    show seriesInvariant
      (edit_schedule_entry_single_in_series entryId f store)
    rcases hfind : lookupEntry entryId store with _ | entry0
    · have hsame : edit_schedule_entry_single_in_series entryId f store =
          store := by
        unfold edit_schedule_entry_single_in_series
        rw [hfind]
      rw [hsame]
      exact hinv
    · have hid0 : entry0.id = entryId := by
        simpa using List.find?_some hfind
      have hmem0 : entry0 ∈ store := List.mem_of_find?_eq_some hfind
      have hsame : edit_schedule_entry_single_in_series entryId f store =
          update_recurrence_metadata entry0.recurrence_group
            (store.map (fun e =>
              if e.id == entryId then applyFields f e else e)) := by
        unfold edit_schedule_entry_single_in_series
        rw [hfind]
      rw [hsame]
      have hm_pt : ∀ (g : ℕ), ∀ e ∈ store, memberOf g
          ((fun e => if e.id == entryId then applyFields f e else e) e) =
          memberOf g e := by
        intro g e _
        show memberOf g (if (e.id == entryId) = true
            then applyFields f e else e) = memberOf g e
        by_cases hc : e.id == entryId
        · rw [if_pos hc]
          rfl
        · rw [if_neg hc]
      rcases hgrp : entry0.recurrence_group with _ | grp
      · rw [update_none]
        refine seriesInvariant_of_filters (fun g _ => ?_) hinv
        refine filter_map_untouched (hm_pt g) ?_
        intro e he hm
        by_cases hc : e.id == entryId
        · exfalso
          have he0 : e = entry0 := entry_id_inj hid e he entry0 hmem0
            (by rw [hid0]; simpa using hc)
          unfold memberOf at hm
          rw [he0, hgrp] at hm
          simp at hm
        · rw [if_neg hc]
      · refine seriesInvariant_reindexed ?_ ?_ hinv
        · refine nodup_ids_map_of_id_preserving ?_ hid
          intro e
          by_cases hc : e.id == entryId
          · rw [if_pos hc]
            rfl
          · rw [if_neg hc]
        · intro g hne
          refine filter_map_untouched (hm_pt g) ?_
          intro e he hm
          by_cases hc : e.id == entryId
          · exfalso
            have he0 : e = entry0 := entry_id_inj hid e he entry0 hmem0
              (by rw [hid0]; simpa using hc)
            unfold memberOf at hm
            rw [he0, hgrp,
              beq_some_ne (fun hcon => hne hcon.symm)] at hm
            simp at hm
          · rw [if_neg hc]
  | deleteSingle entryId =>
    have hid : nodupIds store := hv
    show seriesInvariant (delete_schedule_entry_single entryId store)
    rcases hfind : lookupEntry entryId store with _ | entry0
    · have hsame : delete_schedule_entry_single entryId store = store := by
        unfold delete_schedule_entry_single
        rw [hfind]
      rw [hsame]
      exact hinv
    · have hid0 : entry0.id = entryId := by
        simpa using List.find?_some hfind
      have hmem0 : entry0 ∈ store := List.mem_of_find?_eq_some hfind
      have hsame : delete_schedule_entry_single entryId store =
          update_recurrence_metadata entry0.recurrence_group
            (store.filter (fun e => !(e.id == entryId))) := by
        unfold delete_schedule_entry_single
        rw [hfind]
      rw [hsame]
      rcases hgrp : entry0.recurrence_group with _ | grp
      · rw [update_none]
        refine seriesInvariant_of_filters (fun g _ => ?_) hinv
        refine filter_filter_untouched ?_
        intro e he hm
        by_cases hc : e.id == entryId
        · exfalso
          have he0 : e = entry0 := entry_id_inj hid e he entry0 hmem0
            (by rw [hid0]; simpa using hc)
          unfold memberOf at hm
          rw [he0, hgrp] at hm
          simp at hm
        · simp [hc]
      · refine seriesInvariant_reindexed ?_ ?_ hinv
        · exact nodup_ids_filter _ hid
        · intro g hne
          refine filter_filter_untouched ?_
          intro e he hm
          by_cases hc : e.id == entryId
          · exfalso
            have he0 : e = entry0 := entry_id_inj hid e he entry0 hmem0
              (by rw [hid0]; simpa using hc)
            unfold memberOf at hm
            rw [he0, hgrp,
              beq_some_ne (fun hcon => hne hcon.symm)] at hm
            simp at hm
          · simp [hc]
  | deleteSeries entryId =>
    show seriesInvariant (delete_schedule_entry_series entryId store)
    rcases hfind : lookupEntry entryId store with _ | entry0
    · have hsame : delete_schedule_entry_series entryId store = store := by
        unfold delete_schedule_entry_series
        rw [hfind]
      rw [hsame]
      exact hinv
    · rcases hgrp : entry0.recurrence_group with _ | grp
      · have hsame : delete_schedule_entry_series entryId store = store := by
          unfold delete_schedule_entry_series
          rw [hfind]
          simp only []
          rw [hgrp]
        rw [hsame]
        exact hinv
      · have hsame : delete_schedule_entry_series entryId store =
            store.filter (fun e => !(memberOf grp e)) := by
          unfold delete_schedule_entry_series
          rw [hfind]
          simp only []
          rw [hgrp]
        rw [hsame]
        refine seriesInvariant_of_filters (fun g hg => ?_) hinv
        have hgne : g ≠ grp := by
          intro hcon
          subst hcon
          obtain ⟨e', he', hrg⟩ := List.mem_filterMap.mp hg
          have h1 := List.of_mem_filter he'
          unfold memberOf at h1
          rw [hrg] at h1
          simp at h1
        refine filter_filter_untouched ?_
        intro e he hm
        have h2 : e.recurrence_group = some g := by
          unfold memberOf at hm
          simpa using hm
        unfold memberOf
        rw [h2, beq_some_ne hgne]
        rfl
  | reindexSeries g =>
    have hid : nodupIds store := hv
    show seriesInvariant (update_recurrence_metadata g store)
    rcases g with _ | grp
    · rw [update_none]
      exact hinv
    · exact seriesInvariant_reindexed hid (fun g' _ => rfl) hinv

/-- Witness for C5: deleting the middle member of the concrete
invariant-satisfying series `sampleStore` with scope=single (a mutation of
the surface, with valid inputs) yields an invariant-satisfying table. -/
theorem C5_invariant_preserved_witness :
    opValid (MutationOp.deleteSingle 2) sampleStore ∧
    seriesInvariant sampleStore ∧
    seriesInvariant (applyOp (MutationOp.deleteSingle 2) sampleStore) :=
  ⟨(by decide : nodupIds sampleStore), by decide,
    C5_invariant_preserved (MutationOp.deleteSingle 2) sampleStore
      (by decide : nodupIds sampleStore) (by decide)⟩
